/-
Verification of the mini-rts terrain and pathfinding core.

This file gives a shallow embedding, in Lean 4, of the repository's
elevation rules (TerrainTypes / TileWalkability), terrain grid
(TerrainMap), seeded procedural generator (TerrainGenerator) and
A* pathfinding engine (Pathfinding), and proves or refutes the spec's
claims about them.

Modelling conventions:
* JavaScript numbers are modelled as exact rationals (ℚ).  None of the
  properties proved here depends on floating-point rounding; `Math.SQRT2`
  is embedded as the exact rational value of the IEEE-754 double.
* `Math.sqrt x <= t`-style comparisons are embedded by comparing squares,
  which is equivalent for nonnegative operands.
* `Math.random()` and `Date.now()` are the program's only external
  (non-seeded) randomness; they are modelled by an explicit environment
  (`Ext`) threaded through the generator: a stream of `Math.random`
  results consumed in call order plus the `Date.now` value.
* Stateful loops become folds / fuel-based recursion; the fuel bounds are
  proved sufficient wherever a claim needs the loop's result.
-/

import Mathlib

/-! ## Terrain kinds (src/terrain/TerrainTypes.ts) -/

/-- The closed set of terrain kinds.  In the source this is a numeric enum
(WATER = -1, FLAT = 0, ELEVATED_1 = 1, ELEVATED_2 = 2, RAMP = 3). -/
inductive TerrainLevel where
  | WATER
  | FLAT
  | ELEVATED_1
  | ELEVATED_2
  | RAMP
  deriving DecidableEq, Repr, Fintype

/-- The numeric value of each enum member in the source. -/
def TerrainLevel.toInt : TerrainLevel → ℤ
  | .WATER => -1
  | .FLAT => 0
  | .ELEVATED_1 => 1
  | .ELEVATED_2 => 2
  | .RAMP => 3

/-- `isElevated`: true for ELEVATED_1 or ELEVATED_2 (not RAMP, not FLAT,
not WATER). -/
def isElevated (level : TerrainLevel) : Bool :=
  level = TerrainLevel.ELEVATED_1 || level = TerrainLevel.ELEVATED_2

/-- `isGround`: true for any walkable ground (everything except WATER). -/
def isGround (level : TerrainLevel) : Bool :=
  level ≠ TerrainLevel.WATER

/-! ## Traversal gate (src/terrain/TileWalkability.ts) -/

/-- `canTraverse(fromLevel, toLevel)`: whether movement between two adjacent
terrain cells is allowed.  Direct translation of the source's cascade of
early returns. -/
def canTraverse (fromLevel toLevel : TerrainLevel) : Bool :=
  if fromLevel = TerrainLevel.WATER ∨ toLevel = TerrainLevel.WATER then false
  else if fromLevel = toLevel then true
  else if fromLevel = TerrainLevel.RAMP ∨ toLevel = TerrainLevel.RAMP then true
  else if fromLevel = TerrainLevel.FLAT ∧ isElevated toLevel then false
  else if isElevated fromLevel ∧ toLevel = TerrainLevel.FLAT then false
  else if isElevated fromLevel ∧ isElevated toLevel ∧ fromLevel ≠ toLevel then false
  else true

/-- C1: the traversal gate satisfies the spec's truth table: reflexive on
every kind other than Water; false whenever either side is Water;
Flat–Elevated1 blocked; Flat–Ramp allowed; Ramp–Elevated2 allowed;
Elevated1–Elevated2 blocked. -/
theorem canTraverse_truth_table :
    (∀ k : TerrainLevel, k ≠ TerrainLevel.WATER → canTraverse k k = true) ∧
    (∀ x : TerrainLevel,
      canTraverse TerrainLevel.WATER x = false ∧
      canTraverse x TerrainLevel.WATER = false) ∧
    canTraverse TerrainLevel.FLAT TerrainLevel.ELEVATED_1 = false ∧
    canTraverse TerrainLevel.FLAT TerrainLevel.RAMP = true ∧
    canTraverse TerrainLevel.RAMP TerrainLevel.ELEVATED_2 = true ∧
    canTraverse TerrainLevel.ELEVATED_1 TerrainLevel.ELEVATED_2 = false := by
  decide

/-- Witness for C1: the reflexivity clause applied at the concrete kind
RAMP, with its `k ≠ Water` hypothesis discharged there. -/
theorem canTraverse_truth_table_witness :
    canTraverse TerrainLevel.RAMP TerrainLevel.RAMP = true :=
  canTraverse_truth_table.1 TerrainLevel.RAMP (by decide)

/-! ## Terrain grid (src/terrain/TerrainMap.ts)

JavaScript array indices are numbers; the generator can produce fractional
indices, so `get`/`set` take exact rationals.  A fractional index addresses
an array property that is invisible to the integer grid (`cells[r][2.5]`),
so such a write is modelled as inert and such a read as `none`; no claim's
code path performs a fractional-row access (which JS would reject). -/

/-- One grid cell: a terrain kind plus a cosmetic variation (a number,
0–3 in practice). -/
structure TerrainCell where
  level : TerrainLevel
  variation : ℚ
  deriving DecidableEq, Repr

/-- The terrain grid: `height × width` cells, row-major, all initialised to
`{ level: FLAT, variation: 0 }` by the constructor. -/
structure TerrainMap where
  width : ℕ
  height : ℕ
  cells : ℤ → ℤ → TerrainCell

/-- `new TerrainMap(cols, rows)`. -/
def TerrainMap.create (cols rows : ℕ) : TerrainMap :=
  { width := cols
    height := rows
    cells := fun _ _ => ⟨TerrainLevel.FLAT, 0⟩ }

/-- `get(row, col)`: `null` out of range; the stored cell otherwise. -/
def TerrainMap.get (m : TerrainMap) (row col : ℚ) : Option TerrainCell :=
  if row < 0 ∨ row ≥ (m.height : ℚ) ∨ col < 0 ∨ col ≥ (m.width : ℚ) then none
  else if row.den = 1 ∧ col.den = 1 then some (m.cells row.num col.num)
  else none

/-- `set(row, col, level, variation = 0)`: in-place update, silently ignored
out of range (and inert at a fractional index, see the section comment). -/
def TerrainMap.set (m : TerrainMap) (row col : ℚ) (level : TerrainLevel)
    (variation : ℚ := 0) : TerrainMap :=
  if 0 ≤ row ∧ row < (m.height : ℚ) ∧ 0 ≤ col ∧ col < (m.width : ℚ) then
    if row.den = 1 ∧ col.den = 1 then
      { m with cells := fun r c =>
          if r = row.num ∧ c = col.num then ⟨level, variation⟩ else m.cells r c }
    else m
  else m

/-- `getLevel(row, col)`: `this.get(row, col)?.level ?? TerrainLevel.WATER`. -/
def TerrainMap.getLevel (m : TerrainMap) (row col : ℚ) : TerrainLevel :=
  match m.get row col with
  | some cell => cell.level
  | none => TerrainLevel.WATER

/-! ### Saved map format (SavedMapData) -/

inductive SavedUnitType where
  | knight | footman | archer | peasant | lancer
  deriving DecidableEq, Repr

inductive SavedTeam where
  | player | enemy
  deriving DecidableEq, Repr

inductive SavedBuildingType where
  | castle | barracks | archery | tower | monastery
  deriving DecidableEq, Repr

structure SavedUnit where
  col : ℚ
  row : ℚ
  type : SavedUnitType
  team : SavedTeam
  deriving DecidableEq, Repr

structure SavedBuilding where
  col : ℚ
  row : ℚ
  type : SavedBuildingType
  deriving DecidableEq, Repr

structure SavedEntities where
  units : List SavedUnit
  buildings : List SavedBuilding
  deriving DecidableEq, Repr

/-- Saved map format: width, height, cells, and optional entities. -/
structure SavedMapData where
  width : ℕ
  height : ℕ
  cells : List (List ℚ)
  entities : Option SavedEntities
  deriving DecidableEq, Repr

/-- The per-cell load step of `fromData`: the validity test
`level === WATER || … || level === RAMP` followed by
`validLevel ? (level as TerrainLevel) : TerrainLevel.FLAT`. -/
def levelOfNumber (level : ℚ) : TerrainLevel :=
  if level = (TerrainLevel.WATER.toInt : ℚ) then TerrainLevel.WATER
  else if level = (TerrainLevel.FLAT.toInt : ℚ) then TerrainLevel.FLAT
  else if level = (TerrainLevel.ELEVATED_1.toInt : ℚ) then TerrainLevel.ELEVATED_1
  else if level = (TerrainLevel.ELEVATED_2.toInt : ℚ) then TerrainLevel.ELEVATED_2
  else if level = (TerrainLevel.RAMP.toInt : ℚ) then TerrainLevel.RAMP
  else TerrainLevel.FLAT

/-- The column loop of `fromData` for one row: it runs while
`c < data.width && c < row.length` and stores the (coerced) level with
variation 0. -/
def fromDataRow (width : ℕ) (r : ℕ) (row : List ℚ) (map : TerrainMap) :
    TerrainMap :=
  (List.range (min width row.length)).foldl
    (fun (map : TerrainMap) (c : ℕ) =>
      map.set (r : ℚ) (c : ℚ) (levelOfNumber (row.getD c 0)) 0)
    map

/-- The row loop body of `fromData`: a missing / non-array row is skipped
(`continue`). -/
def fromDataStep (data : SavedMapData) (map : TerrainMap) (r : ℕ) : TerrainMap :=
  match data.cells[r]? with
  | none => map
  | some row => fromDataRow data.width r row map

/-- `TerrainMap.fromData`: build a fresh map and copy every valid cell. -/
def TerrainMap.fromData (data : SavedMapData) : TerrainMap :=
  (List.range data.height).foldl (fromDataStep data)
    (TerrainMap.create data.width data.height)

/-- `toData(entities?)`: serialize the grid (kinds only, as their numeric
enum values); entities default to empty arrays. -/
def TerrainMap.toData (m : TerrainMap) (entities : Option SavedEntities := none) :
    SavedMapData :=
  { width := m.width
    height := m.height
    cells := (List.range m.height).map (fun (r : ℕ) =>
      (List.range m.width).map (fun (c : ℕ) => ((m.getLevel (r : ℚ) (c : ℚ)).toInt : ℚ)))
    entities := some (entities.getD ⟨[], []⟩) }

/-! ## Terrain generator (src/terrain/TerrainGenerator.ts)

The generator's only randomness sources are a seeded LCG (`SeededRandom`)
and the ambient `Math.random()` / `Date.now()`.  The ambient sources are
modelled by an environment `Ext`: a stream of `Math.random` results
consumed in call order (the stream index is threaded through explicitly)
plus the `Date.now` value.  All number arithmetic is exact rational
arithmetic; `x & 0x7fffffff` is the low 31 bits of ToUint32(x). -/

/-- The ambient, non-seeded randomness: `Math.random()` call number `k`
returns `random k`, and `Date.now()` returns `dateNow`. -/
structure ExtEnv where
  random : ℕ → ℚ
  dateNow : ℚ

/-- JavaScript ToInt32/ToUint32 truncation toward zero. -/
def jsTrunc (x : ℚ) : ℤ :=
  if 0 ≤ x then ⌊x⌋ else -⌊-x⌋

/-- The unsigned 32-bit value of a number (`ToUint32`). -/
def toUint32 (x : ℚ) : ℕ :=
  (jsTrunc x % (4294967296 : ℤ)).toNat

/-- Simple seeded PRNG for reproducible maps (an LCG).  The state is a
number; after one step it is always a natural number below 2^31. -/
structure SeededRandom where
  state : ℚ
  deriving DecidableEq, Repr

/-- `constructor(seed) { this.state = seed || Date.now(); }` — a falsy
(zero) seed falls back to the wall clock. -/
def SeededRandom.create (seed : ℚ) (dateNow : ℚ) : SeededRandom :=
  ⟨if seed = 0 then dateNow else seed⟩

/-- `next()`: `state = (state * 1103515245 + 12345) & 0x7fffffff;
return state / 0x7fffffff`.  The `&` masks the ToUint32 image down to its
low 31 bits, so the new state is a natural number. -/
def SeededRandom.next (r : SeededRandom) : ℚ × SeededRandom :=
  let state : ℕ := toUint32 (r.state * 1103515245 + 12345) &&& 0x7fffffff
  ((state : ℚ) / 0x7fffffff, ⟨(state : ℚ)⟩)

/-- `int(min, max)`: `Math.floor(this.next() * (max - min + 1)) + min`. -/
def SeededRandom.int (r : SeededRandom) (min max : ℚ) : ℚ × SeededRandom :=
  let (q, r1) := r.next
  ((⌊q * (max - min + 1)⌋ : ℤ) + min, r1)

/-- `bool(probability = 0.5)`: `this.next() < probability`. -/
def SeededRandom.bool (r : SeededRandom) (probability : ℚ := 0.5) : Bool × SeededRandom :=
  let (q, r1) := r.next
  (q < probability, r1)

/-- The options record accepted by `generateTerrain`; a missing field
means the corresponding `DEFAULT_OPTIONS` entry applies. -/
structure GeneratorOptions where
  waterRatio : Option ℚ := none
  elevatedRegions : Option ℕ := none
  createLakes : Option Bool := none
  createCoast : Option Bool := none
  seed : Option ℚ := none

/-- The fully-defaulted options (`{ ...DEFAULT_OPTIONS, ...options }`). -/
structure ResolvedOptions where
  waterRatio : ℚ
  elevatedRegions : ℕ
  createLakes : Bool
  createCoast : Bool
  seed : ℚ

/-- `DEFAULT_OPTIONS` merged under the supplied options. -/
def resolveOptions (options : GeneratorOptions) : ResolvedOptions :=
  { waterRatio := options.waterRatio.getD 0.15
    elevatedRegions := options.elevatedRegions.getD 4
    createLakes := options.createLakes.getD true
    createCoast := options.createCoast.getD true
    seed := options.seed.getD 0 }

/-- The values taken by a JS loop counter `for (v = start; v <= stop; v++)`
(the counter may be fractional; it advances by 1). -/
def qRangeLe (start stop : ℚ) : List ℚ :=
  (List.range (⌊stop - start⌋ + 1).toNat).map (fun i => start + i)

/-- The values taken by a JS loop counter `for (v = start; v < stop; v++)`. -/
def qRangeLt (start stop : ℚ) : List ℚ :=
  (List.range (⌈stop - start⌉).toNat).map (fun i => start + i)

/-- `Math.sqrt x <= t`, expressed on squares (exact for the nonnegative
operands the generator uses). -/
def sqrtLe (x t : ℚ) : Bool :=
  0 ≤ t ∧ x ≤ t * t

/-- `Math.sqrt x < t`, expressed on squares. -/
def sqrtLt (x t : ℚ) : Bool :=
  0 ≤ t ∧ x < t * t

/-- The initial fill of `generateTerrain`: every cell becomes FLAT with a
random variation (`map.set(r, c, FLAT, rng.int(0, 3))`, row-major). -/
def initFlatCells (cols rows : ℕ) (mr : TerrainMap × SeededRandom) :
    TerrainMap × SeededRandom :=
  (List.range rows).foldl (fun mr r =>
    (List.range cols).foldl (fun (mr : TerrainMap × SeededRandom) c =>
      let (v, rng1) := mr.2.int 0 3
      (mr.1.set (r : ℚ) (c : ℚ) TerrainLevel.FLAT v, rng1)) mr) mr

/-- `carveWaterPath`: carve a bay inland with a circular brush and a
jittered directional walk. -/
def carveWaterPath (map : TerrainMap) (rng : SeededRandom) (startR startC : ℚ)
    (direction : ℚ) (length : ℚ) (width : ℚ) : TerrainMap × SeededRandom :=
  let dirVec : ℚ × ℚ :=
    if direction = 0 then (1, 0)
    else if direction = 1 then (0, -1)
    else if direction = 2 then (-1, 0)
    else (0, 1)
  let res := (qRangeLt 0 length).foldl
    (fun (acc : (ℚ × ℚ) × TerrainMap × SeededRandom) _ =>
      let ((r, c), map, rng) := acc
      let (map, rng) := (qRangeLe (-width) width).foldl (fun mr wr =>
        (qRangeLe (-width) width).foldl (fun (mr : TerrainMap × SeededRandom) wc =>
          if sqrtLe (wr * wr + wc * wc) width then
            let (q, rng1) := mr.2.next
            if q < 0.8 then (mr.1.set (r + wr) (c + wc) TerrainLevel.WATER, rng1)
            else (mr.1, rng1)
          else mr) mr) (map, rng)
      let (j1, rng) := rng.int (-1) 1
      let r := r + dirVec.1 + j1
      let (j2, rng) := rng.int (-1) 1
      let c := c + dirVec.2 + j2
      let r := max 1 (min ((map.height : ℚ) - 2) r)
      let c := max 1 (min ((map.width : ℚ) - 2) c)
      ((r, c), map, rng))
    ((startR, startC), map, rng)
  res.2

/-- `createCoastalEdges`: erode an irregular water border, then carve 2–4
bays inland from random edge points. -/
def createCoastalEdges (map : TerrainMap) (rng : SeededRandom) (ratio : ℚ) :
    TerrainMap × SeededRandom :=
  let width := map.width
  let height := map.height
  let edgeDepth : ℚ := max 2 (⌊(min width height : ℕ) * ratio * 0.3⌋ : ℤ)
  let (map, rng) := (List.range height).foldl (fun mr r =>
    (List.range width).foldl (fun (mr : TerrainMap × SeededRandom) c =>
      let distFromEdge : ℚ :=
        min (min (r : ℚ) (c : ℚ)) (min ((height : ℚ) - 1 - r) ((width : ℚ) - 1 - c))
      if distFromEdge < edgeDepth then
        let prob := 1 - distFromEdge / edgeDepth
        let (n1, rng1) := mr.2.next
        let noise := n1 * 0.4
        let (n2, rng2) := rng1.next
        if n2 < prob * 0.8 + noise * 0.2 then
          (mr.1.set (r : ℚ) (c : ℚ) TerrainLevel.WATER, rng2)
        else (mr.1, rng2)
      else mr) mr) (map, rng)
  let (numBays, rng) := rng.int 2 4
  (qRangeLt 0 numBays).foldl (fun (mr : TerrainMap × SeededRandom) _ =>
    let (map, rng) := mr
    let (edge, rng) := rng.int 0 3
    let (startR, startC, rng) :=
      if edge = 0 then
        let (sc, rng1) := rng.int ((width : ℚ) * 0.2) ((width : ℚ) * 0.8)
        ((0 : ℚ), sc, rng1)
      else if edge = 1 then
        let (sr, rng1) := rng.int ((height : ℚ) * 0.2) ((height : ℚ) * 0.8)
        (sr, (width : ℚ) - 1, rng1)
      else if edge = 2 then
        let (sc, rng1) := rng.int ((width : ℚ) * 0.2) ((width : ℚ) * 0.8)
        ((height : ℚ) - 1, sc, rng1)
      else
        let (sr, rng1) := rng.int ((height : ℚ) * 0.2) ((height : ℚ) * 0.8)
        (sr, (0 : ℚ), rng1)
    let (bayLength, rng) := rng.int 3 (⌊(min width height : ℕ) * (0.2 : ℚ)⌋ : ℤ)
    let (bayWidth, rng) := rng.int 2 4
    carveWaterPath map rng startR startC edge bayLength bayWidth) (map, rng)

/-- The parameters of one elliptical lake blob placed by `createLakes`
(recorded as a ghost output so lake counting can be stated). -/
structure LakeBlob where
  centerR : ℚ
  centerC : ℚ
  radiusR : ℚ
  radiusC : ℚ
  deriving DecidableEq, Repr

/-- The body of the `createLakes` loop: place one irregular elliptical
water blob at a random interior position, appending its parameters to the
ghost blob list. -/
def createLakeStep (width height : ℕ)
    (acc : TerrainMap × SeededRandom × List LakeBlob) :
    TerrainMap × SeededRandom × List LakeBlob :=
  let (map, rng, blobs) := acc
  let (centerR, rng) := rng.int ((height : ℚ) * 0.25) ((height : ℚ) * 0.75)
  let (centerC, rng) := rng.int ((width : ℚ) * 0.25) ((width : ℚ) * 0.75)
  let (radiusR, rng) := rng.int 2 (⌊(height : ℚ) * 0.1⌋ : ℤ)
  let (radiusC, rng) := rng.int 2 (⌊(width : ℚ) * 0.1⌋ : ℤ)
  let (map, rng) := (qRangeLe (centerR - radiusR - 2) (centerR + radiusR + 2)).foldl
    (fun mr r =>
      (qRangeLe (centerC - radiusC - 2) (centerC + radiusC + 2)).foldl
        (fun (mr : TerrainMap × SeededRandom) c =>
          let dr := (r - centerR) / radiusR
          let dc := (c - centerC) / radiusC
          let (q, rng1) := mr.2.next
          if sqrtLt (dr * dr + dc * dc) (1 + q * 0.3) then
            (mr.1.set r c TerrainLevel.WATER, rng1)
          else (mr.1, rng1)) mr) (map, rng)
  (map, rng, blobs ++ [⟨centerR, centerC, radiusR, radiusC⟩])

/-- `createLakes`: place `numLakes` irregular elliptical water blobs at
random interior positions.  The returned list records one entry per blob
placed (a ghost output; the source has no such value). -/
def createLakes (map : TerrainMap) (rng : SeededRandom) (numLakes : ℕ) :
    TerrainMap × SeededRandom × List LakeBlob :=
  (List.range numLakes).foldl (fun acc _ => createLakeStep map.width map.height acc)
    (map, rng, [])

/-- One already-placed elevated region (for the overlap test). -/
structure ElevRegion where
  r : ℚ
  c : ℚ
  w : ℚ
  h : ℚ
  deriving DecidableEq, Repr

/-- The overlap test of `createElevatedRegions` (2-cell margin). -/
def regionOverlaps (startC startR w h : ℚ) (region : ElevRegion) : Bool :=
  startC < region.c + region.w + 2 ∧ startC + w + 2 > region.c ∧
  startR < region.r + region.h + 2 ∧ startR + h + 2 > region.r

/-- One pass of the `while (attempts < 50)` placement loop for a single
elevated region: draw a candidate rectangle, validate it, and either fill
it or retry with one less attempt. -/
def tryPlaceRegion (width height : ℕ) :
    ℕ → TerrainMap × SeededRandom × List ElevRegion →
    TerrainMap × SeededRandom × List ElevRegion
  | 0, acc => acc
  | fuel + 1, (map, rng, regions) =>
    let (w, rng) := rng.int 4 (⌊(width : ℚ) * 0.15⌋ : ℤ)
    let (h, rng) := rng.int 4 (⌊(height : ℚ) * 0.15⌋ : ℤ)
    let (startC, rng) := rng.int 2 ((width : ℚ) - w - 2)
    let (startR, rng) := rng.int 2 ((height : ℚ) - h - 2)
    let valid := ¬ regions.any (regionOverlaps startC startR w h)
    let valid :=
      if valid then
        let waterCount : ℚ := (qRangeLt startR (startR + h)).foldl (fun n r =>
          (qRangeLt startC (startC + w)).foldl (fun (n : ℚ) c =>
            if map.getLevel r c = TerrainLevel.WATER then n + 1 else n) n) 0
        ¬ (waterCount > w * h * 0.5)
      else false
    if valid then
      let regions := regions ++ [⟨startR, startC, w, h⟩]
      let (b, rng) := rng.bool 0.3
      let level := if b then TerrainLevel.ELEVATED_2 else TerrainLevel.ELEVATED_1
      let (map, rng) := (qRangeLt startR (startR + h)).foldl (fun mr r =>
        (qRangeLt startC (startC + w)).foldl
          (fun (mr : TerrainMap × SeededRandom) c =>
            if mr.1.getLevel r c = TerrainLevel.WATER then mr
            else
              let edgeDist :=
                min (min (r - startR) (c - startC))
                  (min (startR + h - 1 - r) (startC + w - 1 - c))
              let prob : ℚ := if edgeDist = 0 then 0.6 else 1.0
              let (q, rng1) := mr.2.next
              if q < prob then
                let (v, rng2) := rng1.int 0 3
                (mr.1.set r c level v, rng2)
              else (mr.1, rng1)) mr) (map, rng)
      (map, rng, regions)
    else tryPlaceRegion width height fuel (map, rng, regions)

/-- `createElevatedRegions`: best-effort placement of `numRegions`
non-overlapping elevated rectangles (at most 50 attempts each). -/
def createElevatedRegions (map : TerrainMap) (rng : SeededRandom)
    (numRegions : ℕ) : TerrainMap × SeededRandom :=
  let res := (List.range numRegions).foldl
    (fun (acc : TerrainMap × SeededRandom × List ElevRegion) _ =>
      tryPlaceRegion map.width map.height 50 acc)
    (map, rng, [])
  (res.1, res.2.1)

/-! ### Smoothing and the top-level generator -/

/-- One insertion step of the `Map<TerrainLevel, number>` count table built
by `smoothTerrain` (JS `Map` iterates in insertion order, modelled by an
association list in first-occurrence order). -/
def bumpCount : List (TerrainLevel × ℕ) → TerrainLevel → List (TerrainLevel × ℕ)
  | [], x => [(x, 1)]
  | (y, n) :: t, x => if y = x then (y, n + 1) :: t else (y, n) :: bumpCount t x

/-- The count table over the 4-neighbor list, in first-occurrence order. -/
def neighborCounts (neighbors : List TerrainLevel) : List (TerrainLevel × ℕ) :=
  neighbors.foldl bumpCount []

/-- The `maxLevel` selection loop of `smoothTerrain`: starting from
`(level, 0)`, replace the running pair whenever a strictly greater count
appears. -/
def smoothMaxLevel (level : TerrainLevel) (neighbors : List TerrainLevel) :
    TerrainLevel :=
  ((neighborCounts neighbors).foldl
    (fun (acc : TerrainLevel × ℕ) p => if p.2 > acc.2 then p else acc)
    (level, 0)).1

/-- The 4-neighbor levels read by a smoothing step, in source order
(up, down, left, right). -/
def smoothNeighbors (map : TerrainMap) (r c : ℤ) : List TerrainLevel :=
  [map.getLevel ((r : ℚ) - 1) (c : ℚ),
   map.getLevel ((r : ℚ) + 1) (c : ℚ),
   map.getLevel (r : ℚ) ((c : ℚ) - 1),
   map.getLevel (r : ℚ) ((c : ℚ) + 1)]

/-- One cell of one smoothing pass: if at most one 4-neighbor shares the
cell's level, adopt `maxLevel` (when it differs) with a fresh
`Math.floor(Math.random() * 4)` variation.  `k` is the index of the next
unconsumed `Math.random()` result. -/
def smoothCell (ext : ExtEnv) (acc : TerrainMap × ℕ) (rc : ℤ × ℤ) :
    TerrainMap × ℕ :=
  let (map, k) := acc
  let (r, c) := rc
  let level := map.getLevel (r : ℚ) (c : ℚ)
  let neighbors := smoothNeighbors map r c
  let sameCount := (neighbors.filter (fun n => n = level)).length
  if sameCount ≤ 1 then
    let maxLevel := smoothMaxLevel level neighbors
    if maxLevel ≠ level then
      (map.set (r : ℚ) (c : ℚ) maxLevel ((⌊ext.random k * 4⌋ : ℤ) : ℚ), k + 1)
    else (map, k)
  else (map, k)

/-- The interior cells `1 ≤ r ≤ height-2`, `1 ≤ c ≤ width-2` scanned by a
smoothing pass, row-major. -/
def interiorCells (width height : ℕ) : List (ℤ × ℤ) :=
  (List.range (height - 2)).flatMap (fun r =>
    (List.range (width - 2)).map (fun c => ((r : ℤ) + 1, (c : ℤ) + 1)))

/-- `smoothTerrain(map)`: two in-place passes over the interior cells.
Returns the map together with the next unconsumed `Math.random` index. -/
def smoothTerrain (map : TerrainMap) (ext : ExtEnv) (k : ℕ) : TerrainMap × ℕ :=
  let pass1 := (interiorCells map.width map.height).foldl (smoothCell ext) (map, k)
  (interiorCells map.width map.height).foldl (smoothCell ext) pass1

/-- The generator's full result: the map plus the ghost list of lake blobs
placed (empty when `createLakes` is off). -/
structure GenResult where
  map : TerrainMap
  lakeBlobs : List LakeBlob

/-- `generateTerrain(cols, rows, options)`, phase by phase.  `Math.random`
is consumed once by `opts.seed || Math.random() * 100000` when the merged
seed is falsy, and then by `smoothTerrain`; the stream index threads
accordingly. -/
def generateTerrainAux (cols rows : ℕ) (options : GeneratorOptions)
    (ext : ExtEnv) : GenResult :=
  let opts := resolveOptions options
  let (seedArg, k0) : ℚ × ℕ :=
    if opts.seed = 0 then (ext.random 0 * 100000, 1) else (opts.seed, 0)
  let rng := SeededRandom.create seedArg ext.dateNow
  let map := TerrainMap.create cols rows
  let (map, rng) := initFlatCells cols rows (map, rng)
  let (map, rng) :=
    if opts.createCoast then createCoastalEdges map rng opts.waterRatio
    else (map, rng)
  let (map, rng, lakeBlobs) :=
    if opts.createLakes then
      createLakes map rng (max 1 ⌊opts.waterRatio * 10⌋).toNat
    else (map, rng, [])
  let (map, _rng) := createElevatedRegions map rng opts.elevatedRegions
  let (map, _k) := smoothTerrain map ext k0
  ⟨map, lakeBlobs⟩

/-- `generateTerrain` proper: the generated map. -/
def generateTerrain (cols rows : ℕ) (options : GeneratorOptions)
    (ext : ExtEnv) : TerrainMap :=
  (generateTerrainAux cols rows options ext).map

/-- Two maps with the same dimensions and the same kind in every cell
(the cosmetic variation is not compared). -/
def TerrainMap.levelsEq (m1 m2 : TerrainMap) : Prop :=
  m1.width = m2.width ∧ m1.height = m2.height ∧
  ∀ r c : ℤ, (m1.cells r c).level = (m2.cells r c).level

/-- Modelled from the amended C8 claim: the kind attaining the maximum
count among `neighbors`, the earliest first occurrence winning ties, and
`current` when the list is empty. -/
def firstMajority (current : TerrainLevel) (neighbors : List TerrainLevel) :
    TerrainLevel :=
  let uniques := neighbors.eraseDups
  let best := (uniques.map (fun x => neighbors.count x)).foldr max 0
  match uniques.find? (fun x => neighbors.count x = best) with
  | some x => x
  | none => current

/-! ## Pathfinding engine (src/systems/Pathfinding.ts)

Search nodes are keyed by their grid coordinates (the source stores one
node object per cell, so object identity coincides with coordinates).
The persistent per-cell state is `walkable` and `terrainLevel`; the
scratch fields `g/h/f/parent` and the open/closed collections live in a
`SearchState` created afresh by every `findPath` call (the source resets
them via `resetGrid`).  The `while (openList.length > 0)` loop becomes a
fuel-based recursion; `findPath` supplies `gridWidth * gridHeight + 1`
fuel, which is proved sufficient (each iteration moves one cell of the
grid into the closed set, never to leave). -/

/-- A grid cell of the search grid: `(x, y)`. -/
abbrev Cell := ℤ × ℤ

/-- The exact rational value of the IEEE-754 double `Math.SQRT2`. -/
def sqrt2Const : ℚ := 6369051672525773 / 4503599627370496

/-- The persistent state of the engine: grid dimensions, cell size, and
the per-cell `walkable` flag and terrain kind. -/
structure Pathfinding where
  gridWidth : ℕ
  gridHeight : ℕ
  cellSize : ℚ
  walkable : Cell → Bool
  terrainLevel : Cell → TerrainLevel

/-- `new Pathfinding(width, height, cellSize = 32)`: `ceil(width/cellSize)
× ceil(height/cellSize)` cells, all walkable FLAT. -/
def Pathfinding.create (width height : ℚ) (cellSize : ℚ := 32) : Pathfinding :=
  { gridWidth := (⌈width / cellSize⌉).toNat
    gridHeight := (⌈height / cellSize⌉).toNat
    cellSize := cellSize
    walkable := fun _ => true
    terrainLevel := fun _ => TerrainLevel.FLAT }

/-- `isValidCell(x, y)`. -/
def Pathfinding.isValidCell (pf : Pathfinding) (cell : Cell) : Bool :=
  0 ≤ cell.1 ∧ cell.1 < (pf.gridWidth : ℤ) ∧ 0 ≤ cell.2 ∧ cell.2 < (pf.gridHeight : ℤ)

/-- `setWalkable(gridX, gridY, walkable)`: no-op out of range. -/
def Pathfinding.setWalkable (pf : Pathfinding) (gridX gridY : ℤ) (w : Bool) :
    Pathfinding :=
  if pf.isValidCell (gridX, gridY) then
    { pf with walkable := fun cell =>
        if cell = (gridX, gridY) then w else pf.walkable cell }
  else pf

/-- `setTerrainLevel(gridX, gridY, level)`: stores the kind and derives
`walkable = level !== WATER`; no-op out of range. -/
def Pathfinding.setTerrainLevel (pf : Pathfinding) (gridX gridY : ℤ)
    (level : TerrainLevel) : Pathfinding :=
  if pf.isValidCell (gridX, gridY) then
    { pf with
      terrainLevel := fun cell =>
        if cell = (gridX, gridY) then level else pf.terrainLevel cell
      walkable := fun cell =>
        if cell = (gridX, gridY) then decide (level ≠ TerrainLevel.WATER)
        else pf.walkable cell }
  else pf

/-- `worldToGrid(worldX, worldY)`: floor division by the cell size. -/
def Pathfinding.worldToGrid (pf : Pathfinding) (worldX worldY : ℚ) : Cell :=
  (⌊worldX / pf.cellSize⌋, ⌊worldY / pf.cellSize⌋)

/-- `gridToWorld(gridX, gridY)`: the cell's world-space center. -/
def Pathfinding.gridToWorld (pf : Pathfinding) (gridX gridY : ℤ) : ℚ × ℚ :=
  ((gridX : ℚ) * pf.cellSize + pf.cellSize / 2,
   (gridY : ℚ) * pf.cellSize + pf.cellSize / 2)

/-- The neighbor direction list, in source order. -/
def directions : List (ℤ × ℤ) :=
  [(0, -1), (1, 0), (0, 1), (-1, 0), (1, -1), (1, 1), (-1, 1), (-1, -1)]

/-- `getNeighbors(node)`: the valid cells among the eight direction
offsets, in source order. -/
def Pathfinding.getNeighbors (pf : Pathfinding) (node : Cell) : List Cell :=
  directions.filterMap (fun dir =>
    let nx := node.1 + dir.1
    let ny := node.2 + dir.2
    if pf.isValidCell (nx, ny) then some (nx, ny) else none)

/-- `getDistance(a, b)`: octile distance
`dx + dy + (SQRT2 - 2) * min(dx, dy)`. -/
def getDistance (a b : Cell) : ℚ :=
  let dx : ℚ := |(a.1 : ℚ) - (b.1 : ℚ)|
  let dy : ℚ := |(a.2 : ℚ) - (b.2 : ℚ)|
  dx + dy + (sqrt2Const - 2) * min dx dy

/-- The three `continue` guards of the neighbor loop that follow the
closed-set test, combined in source order: the neighbor must be walkable
and traversal-compatible, and a diagonal move must also have both cardinal
corner cells (`grid[current.y][neighbor.x]` and `grid[neighbor.y][current.x]`)
walkable and traversal-compatible from the current cell. -/
def Pathfinding.stepOK (pf : Pathfinding) (current neighbor : Cell) : Bool :=
  pf.walkable neighbor &&
  canTraverse (pf.terrainLevel current) (pf.terrainLevel neighbor) &&
  (let dx := neighbor.1 - current.1
   let dy := neighbor.2 - current.2
   if dx ≠ 0 ∧ dy ≠ 0 then
     let cx : Cell := (neighbor.1, current.2)
     let cy : Cell := (current.1, neighbor.2)
     pf.walkable cx && pf.walkable cy &&
     canTraverse (pf.terrainLevel current) (pf.terrainLevel cx) &&
     canTraverse (pf.terrainLevel current) (pf.terrainLevel cy)
   else true)

/-- The per-search scratch state: `g/h/f/parent` for every cell (all reset
at the start of a search), the open list (in insertion order) and the
closed set. -/
structure SearchState where
  g : Cell → ℚ
  h : Cell → ℚ
  f : Cell → ℚ
  parent : Cell → Option Cell
  openList : List Cell
  closedList : Finset Cell

/-- The body of the neighbor loop for one neighbor: skip if closed or
gated out; otherwise relax (`!inOpenList || tentativeG < neighbor.g`),
recording parent, g, h and f, and push onto the open list if absent. -/
def processNeighbor (pf : Pathfinding) (endCell current : Cell)
    (st : SearchState) (neighbor : Cell) : SearchState :=
  if neighbor ∈ st.closedList then st
  else if pf.stepOK current neighbor then
    let tentativeG := st.g current + getDistance current neighbor
    let inOpenList := neighbor ∈ st.openList
    if ¬ inOpenList ∨ tentativeG < st.g neighbor then
      let hval := getDistance neighbor endCell
      { g := fun cell => if cell = neighbor then tentativeG else st.g cell
        h := fun cell => if cell = neighbor then hval else st.h cell
        f := fun cell => if cell = neighbor then tentativeG + hval else st.f cell
        parent := fun cell => if cell = neighbor then some current else st.parent cell
        openList := if ¬ inOpenList then st.openList ++ [neighbor] else st.openList
        closedList := st.closedList }
    else st
  else st

/-- The open-list minimum scan: the element with the smallest `f`, the
earliest winning ties (the source scans indices left to right and replaces
only on strictly smaller `f`), together with the list with that one
occurrence removed (`splice`). -/
def popMin (f : Cell → ℚ) : Cell → List Cell → Cell × List Cell
  | c, [] => (c, [])
  | c, d :: t =>
    let (m, rest) := popMin f d t
    if f m < f c then (m, c :: rest) else (c, d :: t)

/-- `reconstructPath(endNode)`: follow the parent chain, building the
waypoint list start-first (`unshift`).  The fuel is an upper bound on the
chain length; the callers below always supply enough. -/
def reconstructPath (pf : Pathfinding) (parent : Cell → Option Cell) :
    ℕ → Cell → List (ℚ × ℚ)
  | 0, current => [pf.gridToWorld current.1 current.2]
  | fuel + 1, current =>
    match parent current with
    | none => [pf.gridToWorld current.1 current.2]
    | some p => reconstructPath pf parent fuel p ++ [pf.gridToWorld current.1 current.2]

/-- The `while (openList.length > 0)` loop of `findPath`: pop the
lowest-f node, return the reconstructed path if it is the goal, otherwise
close it and relax its neighbors. -/
def aStarLoop (pf : Pathfinding) (endCell : Cell) :
    ℕ → SearchState → List (ℚ × ℚ)
  | 0, _ => []
  | fuel + 1, st =>
    match st.openList with
    | [] => []
    | c :: rest =>
      let (current, remaining) := popMin st.f c rest
      if current = endCell then
        reconstructPath pf st.parent (pf.gridWidth * pf.gridHeight + 1) current
      else
        let st1 : SearchState :=
          { st with openList := remaining, closedList := insert current st.closedList }
        aStarLoop pf endCell fuel
          ((pf.getNeighbors current).foldl (processNeighbor pf endCell current) st1)

/-- The scratch state at the start of a search: `resetGrid()` (all
`g/h/f` zero, all parents null) with the start node pushed. -/
def searchStart (s : Cell) : SearchState :=
  { g := fun _ => 0
    h := fun _ => 0
    f := fun _ => 0
    parent := fun _ => none
    openList := [s]
    closedList := ∅ }

/-- `findPath(startX, startY, endX, endY)`: empty if either endpoint cell
is out of range or the end cell is unwalkable; otherwise run A* from a
fresh scratch state seeded with the start cell. -/
def Pathfinding.findPath (pf : Pathfinding) (startX startY endX endY : ℚ) :
    List (ℚ × ℚ) :=
  let s := pf.worldToGrid startX startY
  let e := pf.worldToGrid endX endY
  if ¬ (pf.isValidCell s ∧ pf.isValidCell e) then []
  else if ¬ pf.walkable e then []
  else aStarLoop pf e (pf.gridWidth * pf.gridHeight + 1) (searchStart s)

/-- The values taken by a JS loop counter `for (v = start; v <= stop; v++)`
over integers. -/
def intRangeLe (start stop : ℤ) : List ℤ :=
  (List.range (stop + 1 - start).toNat).map (fun (i : ℕ) => start + (i : ℤ))

/-- `markBuildingBlocked(worldX, worldY, widthPx, heightPx)`: convert the
centered bounding box to a grid-cell range and mark every covered cell
unwalkable. -/
def Pathfinding.markBuildingBlocked (pf : Pathfinding)
    (worldX worldY widthPx heightPx : ℚ) : Pathfinding :=
  let halfW := widthPx / 2
  let halfH := heightPx / 2
  let startGrid := pf.worldToGrid (worldX - halfW) (worldY - halfH)
  let endGrid := pf.worldToGrid (worldX + halfW) (worldY + halfH)
  (intRangeLe startGrid.2 endGrid.2).foldl (fun pf gy =>
    (intRangeLe startGrid.1 endGrid.1).foldl (fun (pf : Pathfinding) gx =>
      pf.setWalkable gx gy false) pf) pf

/-- One admissible move of the search: `b` is among `a`'s valid neighbors
and passes every gate of the neighbor loop. -/
def canStep (pf : Pathfinding) (a b : Cell) : Prop :=
  b ∈ pf.getNeighbors a ∧ pf.stepOK a b = true

instance (pf : Pathfinding) (a b : Cell) : Decidable (canStep pf a b) := by
  unfold canStep
  infer_instance

/-- Connectivity under the engine's admissible-move relation (directed,
from `a` to `b`). -/
def Reachable (pf : Pathfinding) (a b : Cell) : Prop :=
  Relation.ReflTransGen (canStep pf) a b

/-- The finite set of grid cells of the engine. -/
def cellsFinset (pf : Pathfinding) : Finset Cell :=
  Finset.Icc (0 : ℤ) ((pf.gridWidth : ℤ) - 1) ×ˢ
    Finset.Icc (0 : ℤ) ((pf.gridHeight : ℤ) - 1)

/-- The loop invariant of the A* search from start cell `s`.  All open and
closed cells are valid and reachable from `s`; the open list is duplicate
free and disjoint from the closed set; parent links record admissible
steps from closed cells and strictly increase `g`; only `s` has no parent
among the visited cells; and every admissible successor of a closed cell
has been seen (the frontier property). -/
structure AStarInv (pf : Pathfinding) (s : Cell) (st : SearchState) : Prop where
  open_reach : ∀ c ∈ st.openList, pf.isValidCell c = true ∧ Reachable pf s c
  closed_reach : ∀ c ∈ st.closedList, pf.isValidCell c = true ∧ Reachable pf s c
  disj : ∀ c ∈ st.openList, c ∉ st.closedList
  nodup : st.openList.Nodup
  mem_s : s ∈ st.openList ∨ s ∈ st.closedList
  parent_s : st.parent s = none
  parent_some : ∀ c, (c ∈ st.openList ∨ c ∈ st.closedList) → c ≠ s →
    (st.parent c).isSome
  parent_step : ∀ c p, st.parent c = some p → canStep pf p c
  parent_closed : ∀ c p, st.parent c = some p → p ∈ st.closedList
  parent_g : ∀ c p, st.parent c = some p → st.g p < st.g c
  g_nonneg : ∀ c, 0 ≤ st.g c
  g_s : st.g s = 0
  frontier : ∀ c ∈ st.closedList, ∀ b, canStep pf c b →
    b ∈ st.openList ∨ b ∈ st.closedList

/-- The invariant holding while the neighbors of the just-closed cell
`current` are being expanded: every `AStarInv` field except that the
frontier property is only guaranteed for the other closed cells (the
expansion of `current` re-establishes it). -/
structure AStarInvMid (pf : Pathfinding) (s current : Cell) (st : SearchState) :
    Prop where
  open_reach : ∀ c ∈ st.openList, pf.isValidCell c = true ∧ Reachable pf s c
  closed_reach : ∀ c ∈ st.closedList, pf.isValidCell c = true ∧ Reachable pf s c
  disj : ∀ c ∈ st.openList, c ∉ st.closedList
  nodup : st.openList.Nodup
  mem_s : s ∈ st.openList ∨ s ∈ st.closedList
  parent_s : st.parent s = none
  parent_some : ∀ c, (c ∈ st.openList ∨ c ∈ st.closedList) → c ≠ s →
    (st.parent c).isSome
  parent_step : ∀ c p, st.parent c = some p → canStep pf p c
  parent_closed : ∀ c p, st.parent c = some p → p ∈ st.closedList
  parent_g : ∀ c p, st.parent c = some p → st.g p < st.g c
  g_nonneg : ∀ c, 0 ≤ st.g c
  g_s : st.g s = 0
  frontier_old : ∀ c ∈ st.closedList, c ≠ current → ∀ b, canStep pf c b →
    b ∈ st.openList ∨ b ∈ st.closedList
  cur_closed : current ∈ st.closedList

/-! ### Concrete instances used by the concrete theorems below -/

/-- A constant `Math.random` stream (with `Date.now()` frozen at 0). -/
def extConst (q : ℚ) : ExtEnv := ⟨fun _ => q, 0⟩

/-- Generator options supplying the (falsy) seed 0, with the other phases
disabled so only the initial fill and smoothing run. -/
def genOptionsSeed0 : GeneratorOptions :=
  { seed := some 0, elevatedRegions := some 0,
    createCoast := some false, createLakes := some false }

/-- Generator options supplying the nonzero seed 3 (coast and lakes off;
the default four elevated regions are requested). -/
def genOptionsSeed3 : GeneratorOptions :=
  { seed := some 3, createCoast := some false, createLakes := some false }

/-- Generator options for the lake-count theorems: nonzero seed, coast
off, lakes on by default (so `waterRatio` keeps its default 0.15). -/
def genOptionsLakes : GeneratorOptions :=
  { seed := some 1, createCoast := some false }

/-- A 3×3 map whose center cell is FLAT with two WATER and two ELEVATED_1
4-neighbors: the majority count is tied between WATER and ELEVATED_1. -/
def tieMap : TerrainMap :=
  ((((TerrainMap.create 3 3).set 0 1 TerrainLevel.WATER 0).set 2 1
    TerrainLevel.WATER 0).set 1 0 TerrainLevel.ELEVATED_1 0).set 1 2
    TerrainLevel.ELEVATED_1 0

/-- A 2×2 all-flat engine (world 64×64 px, cell size 32). -/
def pfSmall : Pathfinding := Pathfinding.create 64 64 32

/-- The same 2×2 engine with the cell (0,0) marked unwalkable. -/
def pfSmallBlocked : Pathfinding := pfSmall.setWalkable 0 0 false

/-- A 3×1 engine whose middle cell is WATER: cell (2,0) is walkable but
not reachable from (0,0). -/
def pfGap : Pathfinding :=
  (Pathfinding.create 96 32 32).setTerrainLevel 1 0 TerrainLevel.WATER

/-- The C7 scenario: a 10×10 all-flat engine (world 320×320 px, cell size
32) on which `markBuildingBlocked(160, 160, 64, 64)` marks the 3×3 block
of cells (4,4)–(6,6) at the center unwalkable. -/
def pfTen : Pathfinding :=
  (Pathfinding.create 320 320 32).markBuildingBlocked 160 160 64 64

/-! ## Proofs: terrain grid basics and serialization round trip (C6) -/

theorem TerrainMap.width_set (m : TerrainMap) (row col : ℚ) (lvl : TerrainLevel)
    (v : ℚ) : (m.set row col lvl v).width = m.width := by
  unfold TerrainMap.set
  split <;> (try split) <;> rfl

theorem TerrainMap.height_set (m : TerrainMap) (row col : ℚ) (lvl : TerrainLevel)
    (v : ℚ) : (m.set row col lvl v).height = m.height := by
  unfold TerrainMap.set
  split <;> (try split) <;> rfl

theorem TerrainMap.cells_set_self (m : TerrainMap) (r c : ℤ) (lvl : TerrainLevel)
    (v : ℚ) (h1 : 0 ≤ r) (h2 : r < (m.height : ℤ)) (h3 : 0 ≤ c)
    (h4 : c < (m.width : ℤ)) :
    (m.set (r : ℚ) (c : ℚ) lvl v).cells r c = ⟨lvl, v⟩ := by
  have hb : (0 : ℚ) ≤ (r : ℚ) ∧ (r : ℚ) < (m.height : ℚ) ∧ (0 : ℚ) ≤ (c : ℚ) ∧
      (c : ℚ) < (m.width : ℚ) := by
    refine ⟨?_, ?_, ?_, ?_⟩ <;> push_cast <;> [exact_mod_cast h1; exact_mod_cast h2;
      exact_mod_cast h3; exact_mod_cast h4]
  have hd : ((r : ℚ)).den = 1 ∧ ((c : ℚ)).den = 1 := ⟨Rat.den_intCast r, Rat.den_intCast c⟩
  simp only [TerrainMap.set, if_pos hb, if_pos hd, Rat.num_intCast]
  simp

theorem TerrainMap.cells_set_ne (m : TerrainMap) (row col : ℚ) (lvl : TerrainLevel)
    (v : ℚ) (r c : ℤ) (h : ¬(row = (r : ℚ) ∧ col = (c : ℚ))) :
    (m.set row col lvl v).cells r c = m.cells r c := by
  unfold TerrainMap.set
  split
  · split
    · next hden =>
      simp only []
      rw [if_neg]
      intro hrc
      apply h
      obtain ⟨hr, hc⟩ := hrc
      have hrow : (row.num : ℚ) = row := by
        have := Rat.den_eq_one_iff row
        exact (this.mp hden.1)
      have hcol : (col.num : ℚ) = col := (Rat.den_eq_one_iff col).mp hden.2
      constructor
      · rw [← hrow, ← hr]
      · rw [← hcol, ← hc]
    · rfl
  · rfl

theorem foldl_width_eq {α : Type} (f : TerrainMap → α → TerrainMap)
    (hf : ∀ m a, (f m a).width = m.width) :
    ∀ (l : List α) (m : TerrainMap), (l.foldl f m).width = m.width := by
  intro l
  induction l with
  | nil => intro m; rfl
  | cons x xs ih => intro m; rw [List.foldl_cons, ih, hf]

theorem foldl_height_eq {α : Type} (f : TerrainMap → α → TerrainMap)
    (hf : ∀ m a, (f m a).height = m.height) :
    ∀ (l : List α) (m : TerrainMap), (l.foldl f m).height = m.height := by
  intro l
  induction l with
  | nil => intro m; rfl
  | cons x xs ih => intro m; rw [List.foldl_cons, ih, hf]

theorem foldl_cells_congr {α : Type} (f : TerrainMap → α → TerrainMap) (ri ci : ℤ) :
    ∀ (l : List α) (m : TerrainMap),
      (∀ m a, a ∈ l → (f m a).cells ri ci = m.cells ri ci) →
      (l.foldl f m).cells ri ci = m.cells ri ci := by
  intro l
  induction l with
  | nil => intro m _; rfl
  | cons x xs ih =>
    intro m hf
    rw [List.foldl_cons, ih _ (fun m a ha => hf m a (List.mem_cons_of_mem _ ha)),
      hf m x (List.mem_cons_self _ _)]

theorem fromDataRow_width (w r : ℕ) (row : List ℚ) (m : TerrainMap) :
    (fromDataRow w r row m).width = m.width :=
  foldl_width_eq _ (fun m _ => TerrainMap.width_set m _ _ _ _) _ m

theorem fromDataRow_height (w r : ℕ) (row : List ℚ) (m : TerrainMap) :
    (fromDataRow w r row m).height = m.height :=
  foldl_height_eq _ (fun m _ => TerrainMap.height_set m _ _ _ _) _ m

theorem fromDataStep_width (data : SavedMapData) (m : TerrainMap) (r : ℕ) :
    (fromDataStep data m r).width = m.width := by
  unfold fromDataStep
  cases data.cells[r]? with
  | none => rfl
  | some row => exact fromDataRow_width _ _ _ _

theorem fromDataStep_height (data : SavedMapData) (m : TerrainMap) (r : ℕ) :
    (fromDataStep data m r).height = m.height := by
  unfold fromDataStep
  cases data.cells[r]? with
  | none => rfl
  | some row => exact fromDataRow_height _ _ _ _

theorem fromData_width (data : SavedMapData) :
    (TerrainMap.fromData data).width = data.width :=
  foldl_width_eq _ (fromDataStep_width data) _ _

theorem fromData_height (data : SavedMapData) :
    (TerrainMap.fromData data).height = data.height :=
  foldl_height_eq _ (fromDataStep_height data) _ _

theorem fromDataRow_cells_ne_row (w r : ℕ) (row : List ℚ) (m : TerrainMap)
    (ri ci : ℤ) (h : ri ≠ (r : ℤ)) :
    (fromDataRow w r row m).cells ri ci = m.cells ri ci := by
  unfold fromDataRow
  apply foldl_cells_congr
  intro m' a _
  apply TerrainMap.cells_set_ne
  intro hcon
  exact h (by exact_mod_cast hcon.1.symm)

theorem fromDataStep_cells_ne_row (data : SavedMapData) (m : TerrainMap)
    (r : ℕ) (ri ci : ℤ) (h : ri ≠ (r : ℤ)) :
    (fromDataStep data m r).cells ri ci = m.cells ri ci := by
  unfold fromDataStep
  cases data.cells[r]? with
  | none => rfl
  | some row => exact fromDataRow_cells_ne_row _ _ _ _ _ _ h

theorem fromDataRow_cells_self (w r : ℕ) (row : List ℚ) (m : TerrainMap)
    (c : ℕ) (hc : c < min w row.length)
    (hrh : (r : ℤ) < (m.height : ℤ)) (hcw : ((c : ℤ)) < (m.width : ℤ)) :
    (fromDataRow w r row m).cells r c = ⟨levelOfNumber (row.getD c 0), 0⟩ := by
  unfold fromDataRow
  have hsplit : List.range (min w row.length) =
      List.range (c + 1) ++
        (List.range (min w row.length - (c + 1))).map (fun i => (c + 1) + i) := by
    rw [← List.range_add]
    congr 1
    omega
  rw [hsplit, List.foldl_append]
  rw [foldl_cells_congr _ _ _ _ _ ?_]
  · rw [List.range_succ, List.foldl_append]
    simp only [List.foldl_cons, List.foldl_nil]
    have hw : (List.foldl
        (fun (map : TerrainMap) (c : ℕ) =>
          map.set (r : ℚ) (c : ℚ) (levelOfNumber (row.getD c 0)) 0)
        m (List.range c)).width = m.width :=
      foldl_width_eq _ (fun m _ => TerrainMap.width_set m _ _ _ _) _ m
    have hh : (List.foldl
        (fun (map : TerrainMap) (c : ℕ) =>
          map.set (r : ℚ) (c : ℚ) (levelOfNumber (row.getD c 0)) 0)
        m (List.range c)).height = m.height :=
      foldl_height_eq _ (fun m _ => TerrainMap.height_set m _ _ _ _) _ m
    have := TerrainMap.cells_set_self
      (List.foldl
        (fun (map : TerrainMap) (c : ℕ) =>
          map.set (r : ℚ) (c : ℚ) (levelOfNumber (row.getD c 0)) 0)
        m (List.range c)) (r : ℤ) (c : ℤ) (levelOfNumber (row.getD c 0)) 0
      (by positivity) (by rw [hh]; exact hrh) (by positivity) (by rw [hw]; exact hcw)
    simpa using this
  · intro m' a ha
    apply TerrainMap.cells_set_ne
    intro hcon
    simp only [List.mem_map, List.mem_range] at ha
    obtain ⟨i, _, hi⟩ := ha
    have hac : a = c := by exact_mod_cast hcon.2
    omega

theorem fromData_cells_eq (data : SavedMapData) (r c : ℕ) (row : List ℚ)
    (hrow : data.cells[r]? = some row) (hr : r < data.height)
    (hcw : c < data.width) (hcl : c < row.length) :
    (TerrainMap.fromData data).cells r c = ⟨levelOfNumber (row.getD c 0), 0⟩ := by
  unfold TerrainMap.fromData
  have hsplit : List.range data.height =
      List.range (r + 1) ++
        (List.range (data.height - (r + 1))).map (fun i => (r + 1) + i) := by
    rw [← List.range_add]
    congr 1
    omega
  rw [hsplit, List.foldl_append]
  rw [foldl_cells_congr _ _ _ _ _ ?_]
  · rw [List.range_succ, List.foldl_append]
    simp only [List.foldl_cons, List.foldl_nil]
    have hw : (List.foldl (fromDataStep data) (TerrainMap.create data.width data.height)
        (List.range r)).width = data.width :=
      foldl_width_eq _ (fromDataStep_width data) _ _
    have hh : (List.foldl (fromDataStep data) (TerrainMap.create data.width data.height)
        (List.range r)).height = data.height :=
      foldl_height_eq _ (fromDataStep_height data) _ _
    rw [fromDataStep, hrow]
    exact fromDataRow_cells_self _ _ _ _ c (by omega)
      (by rw [hh]; exact_mod_cast hr) (by rw [hw]; exact_mod_cast hcw)
  · intro m' a ha
    apply fromDataStep_cells_ne_row
    simp only [List.mem_map, List.mem_range] at ha
    obtain ⟨i, _, hi⟩ := ha
    intro hcon
    have : r = a := by exact_mod_cast hcon
    omega

theorem toData_cells_get (m : TerrainMap) (ent : Option SavedEntities) (r : ℕ)
    (hr : r < m.height) :
    (m.toData ent).cells[r]? =
      some ((List.range m.width).map
        (fun (c : ℕ) => ((m.getLevel (r : ℚ) (c : ℚ)).toInt : ℚ))) := by
  unfold TerrainMap.toData
  rw [List.getElem?_map, List.getElem?_range hr]
  rfl

theorem levelOfNumber_toInt (l : TerrainLevel) :
    levelOfNumber ((l.toInt : ℤ) : ℚ) = l := by
  cases l <;> norm_num [levelOfNumber, TerrainLevel.toInt]

theorem TerrainMap.get_intCast (m : TerrainMap) (r c : ℤ)
    (h1 : 0 ≤ r) (h2 : r < (m.height : ℤ)) (h3 : 0 ≤ c) (h4 : c < (m.width : ℤ)) :
    m.get (r : ℚ) (c : ℚ) = some (m.cells r c) := by
  have hno : ¬((r : ℚ) < 0 ∨ (r : ℚ) ≥ (m.height : ℚ) ∨ (c : ℚ) < 0 ∨
      (c : ℚ) ≥ (m.width : ℚ)) := by
    push_neg
    refine ⟨?_, ?_, ?_, ?_⟩ <;>
      [exact_mod_cast h1; exact_mod_cast h2; exact_mod_cast h3; exact_mod_cast h4]
  unfold TerrainMap.get
  rw [if_neg hno, if_pos ⟨Rat.den_intCast r, Rat.den_intCast c⟩,
    Rat.num_intCast, Rat.num_intCast]

theorem TerrainMap.getLevel_intCast (m : TerrainMap) (r c : ℤ)
    (h1 : 0 ≤ r) (h2 : r < (m.height : ℤ)) (h3 : 0 ≤ c) (h4 : c < (m.width : ℤ)) :
    m.getLevel (r : ℚ) (c : ℚ) = (m.cells r c).level := by
  unfold TerrainMap.getLevel
  rw [TerrainMap.get_intCast m r c h1 h2 h3 h4]

theorem TerrainMap.getLevel_natCast (m : TerrainMap) (r c : ℕ)
    (h2 : r < m.height) (h4 : c < m.width) :
    m.getLevel (r : ℚ) (c : ℚ) = (m.cells r c).level := by
  have := TerrainMap.getLevel_intCast m r c (Int.natCast_nonneg r)
    (by exact_mod_cast h2) (Int.natCast_nonneg c) (by exact_mod_cast h4)
  simpa using this

theorem levelOfNumber_invalid (v : ℚ)
    (h : ∀ l : TerrainLevel, v ≠ (l.toInt : ℚ)) :
    levelOfNumber v = TerrainLevel.FLAT := by
  unfold levelOfNumber
  rw [if_neg (h TerrainLevel.WATER), if_neg (h TerrainLevel.FLAT),
    if_neg (h TerrainLevel.ELEVATED_1), if_neg (h TerrainLevel.ELEVATED_2),
    if_neg (h TerrainLevel.RAMP)]

/-- C6: serialization round trip and lenient load.  (1) For every map and
every in-range cell, `fromData (toData m)` restores the cell's kind (the
variation is reset, so only kinds are guaranteed).  (2) During `fromData`,
a cell value outside the closed enum set is coerced to FLAT rather than
rejected. -/
theorem fromData_toData_round_trip :
    (∀ (m : TerrainMap) (ent : Option SavedEntities) (r c : ℕ),
      r < m.height → c < m.width →
      (TerrainMap.fromData (m.toData ent)).getLevel (r : ℚ) (c : ℚ) =
        m.getLevel (r : ℚ) (c : ℚ)) ∧
    (∀ (data : SavedMapData) (r c : ℕ) (row : List ℚ),
      data.cells[r]? = some row → r < data.height → c < data.width →
      c < row.length → (∀ l : TerrainLevel, row.getD c 0 ≠ (l.toInt : ℚ)) →
      (TerrainMap.fromData data).getLevel (r : ℚ) (c : ℚ) = TerrainLevel.FLAT) := by
  constructor
  · intro m ent r c hr hc
    have hrow := toData_cells_get m ent r hr
    have hcell := fromData_cells_eq (m.toData ent) r c _ hrow hr hc (by simp [hc])
    have hlev := TerrainMap.getLevel_natCast (TerrainMap.fromData (m.toData ent)) r c
      (by rw [fromData_height]; exact hr) (by rw [fromData_width]; exact hc)
    have hgetD : ((List.range m.width).map
        (fun (c : ℕ) => ((m.getLevel (r : ℚ) (c : ℚ)).toInt : ℚ))).getD c 0 =
        ((m.getLevel (r : ℚ) (c : ℚ)).toInt : ℚ) := by
      rw [List.getD_eq_getElem?_getD, List.getElem?_map, List.getElem?_range hc]
      rfl
    rw [hlev, hcell]
    show levelOfNumber _ = _
    rw [hgetD, levelOfNumber_toInt]
  · intro data r c row hrow hr hcw hcl hv
    have hcell := fromData_cells_eq data r c row hrow hr hcw hcl
    have hlev := TerrainMap.getLevel_natCast (TerrainMap.fromData data) r c
      (by rw [fromData_height]; exact hr) (by rw [fromData_width]; exact hcw)
    rw [hlev, hcell]
    show levelOfNumber _ = _
    exact levelOfNumber_invalid _ hv

/-- Witness for C6: both clauses applied at a concrete map and a concrete
saved payload.  The map is 2×1 with one ELEVATED_2 cell; the payload holds
the out-of-enum value 7, which loads as FLAT. -/
theorem fromData_toData_round_trip_witness :
    (TerrainMap.fromData (((TerrainMap.create 2 1).set 0 1 TerrainLevel.ELEVATED_2 0).toData
        none)).getLevel 0 1 =
      ((TerrainMap.create 2 1).set 0 1 TerrainLevel.ELEVATED_2 0).getLevel 0 1 ∧
    (TerrainMap.fromData ⟨1, 1, [[7]], none⟩).getLevel 0 0 = TerrainLevel.FLAT := by
  constructor
  · have := fromData_toData_round_trip.1
      (((TerrainMap.create 2 1).set 0 1 TerrainLevel.ELEVATED_2 0)) none 0 1
      (by rw [TerrainMap.height_set]; simp [TerrainMap.create])
      (by rw [TerrainMap.width_set]; simp [TerrainMap.create])
    simpa using this
  · have := fromData_toData_round_trip.2 ⟨1, 1, [[7]], none⟩ 0 0 [7] rfl
      Nat.one_pos Nat.one_pos (by simp)
      (by intro l; cases l <;> norm_num [TerrainLevel.toInt])
    simpa using this

/-! ## Proofs: the smoothing step (C8) -/

/-- The insertion-ordered count fold of `smoothTerrain` picks exactly the
earliest kind attaining the maximum neighbor count (checked over all 5^5
combinations of a cell's kind and its four neighbor kinds). -/
theorem smoothMaxLevel_eq_firstMajority :
    ∀ (l n1 n2 n3 n4 : TerrainLevel),
      smoothMaxLevel l [n1, n2, n3, n4] = firstMajority l [n1, n2, n3, n4] := by
  decide

/-- C8 (amended): in a smoothing pass, an in-range cell whose same-kind
4-neighbor count is at most 1 adopts the kind with the strictly greatest
count among its 4 neighbors — on ties the kind first encountered in
up, down, left, right order, which need not be the current kind — with a
fresh `Math.floor(Math.random() * 4)` variation when the winner differs
from the current kind, and is left untouched when the winner equals it. -/
theorem smoothCell_spec (map : TerrainMap) (k : ℕ) (ext : ExtEnv) (r c : ℤ)
    (h1 : 0 ≤ r) (h2 : r < (map.height : ℤ)) (h3 : 0 ≤ c) (h4 : c < (map.width : ℤ))
    (hcnt : ((smoothNeighbors map r c).filter
      (fun n => n = map.getLevel (r : ℚ) (c : ℚ))).length ≤ 1) :
    ((smoothCell ext (map, k) (r, c)).1.getLevel (r : ℚ) (c : ℚ) =
      firstMajority (map.getLevel (r : ℚ) (c : ℚ)) (smoothNeighbors map r c)) ∧
    (firstMajority (map.getLevel (r : ℚ) (c : ℚ)) (smoothNeighbors map r c) ≠
        map.getLevel (r : ℚ) (c : ℚ) →
      (smoothCell ext (map, k) (r, c)).1.cells r c =
        ⟨firstMajority (map.getLevel (r : ℚ) (c : ℚ)) (smoothNeighbors map r c),
          ((⌊ext.random k * 4⌋ : ℤ) : ℚ)⟩ ∧
      (smoothCell ext (map, k) (r, c)).2 = k + 1) ∧
    (firstMajority (map.getLevel (r : ℚ) (c : ℚ)) (smoothNeighbors map r c) =
        map.getLevel (r : ℚ) (c : ℚ) →
      smoothCell ext (map, k) (r, c) = (map, k)) := by
  have hmax : smoothMaxLevel (map.getLevel (r : ℚ) (c : ℚ)) (smoothNeighbors map r c) =
      firstMajority (map.getLevel (r : ℚ) (c : ℚ)) (smoothNeighbors map r c) :=
    smoothMaxLevel_eq_firstMajority _ _ _ _ _
  by_cases hne : firstMajority (map.getLevel (r : ℚ) (c : ℚ)) (smoothNeighbors map r c) =
      map.getLevel (r : ℚ) (c : ℚ)
  · have hstep : smoothCell ext (map, k) (r, c) = (map, k) := by
      simp only [smoothCell]
      rw [if_pos hcnt, hmax, if_neg (by simpa using hne)]
    refine ⟨?_, fun hcon => absurd hne hcon, fun _ => hstep⟩
    rw [hstep, hne]
  · have hstep : smoothCell ext (map, k) (r, c) =
        (map.set (r : ℚ) (c : ℚ)
          (smoothMaxLevel (map.getLevel (r : ℚ) (c : ℚ)) (smoothNeighbors map r c))
          ((⌊ext.random k * 4⌋ : ℤ) : ℚ), k + 1) := by
      simp only [smoothCell]
      rw [if_pos hcnt, hmax, if_pos hne]
    have hcell : (smoothCell ext (map, k) (r, c)).1.cells r c =
        ⟨firstMajority (map.getLevel (r : ℚ) (c : ℚ)) (smoothNeighbors map r c),
          ((⌊ext.random k * 4⌋ : ℤ) : ℚ)⟩ := by
      rw [hstep]
      simp only []
      rw [hmax]
      exact TerrainMap.cells_set_self map r c _ _ h1 h2 h3 h4
    refine ⟨?_, fun _ => ⟨hcell, by rw [hstep]⟩, fun hcon => absurd hcon hne⟩
    have hlev := TerrainMap.getLevel_intCast (smoothCell ext (map, k) (r, c)).1 r c
      h1 ?_ h3 ?_
    · rw [hlev, hcell]
    · rw [hstep]
      simp only []
      rw [TerrainMap.height_set]
      exact h2
    · rw [hstep]
      simp only []
      rw [TerrainMap.width_set]
      exact h4

/-- Counterexample for C8 as stated: in `tieMap` the center cell is FLAT
with no same-kind neighbor, and the majority count is tied (two WATER,
two ELEVATED_1).  The claim says a tie keeps the current kind, but the two
smoothing passes turn the cell into WATER (the first kind encountered),
not FLAT. -/
theorem smooth_tie_counterexample :
    ((smoothNeighbors tieMap 1 1).filter
      (fun n => n = tieMap.getLevel 1 1)).length = 0 ∧
    (smoothNeighbors tieMap 1 1).count TerrainLevel.WATER =
      (smoothNeighbors tieMap 1 1).count TerrainLevel.ELEVATED_1 ∧
    tieMap.getLevel 1 1 = TerrainLevel.FLAT ∧
    (smoothTerrain tieMap (extConst 0) 0).1.getLevel 1 1 = TerrainLevel.WATER := by
  refine ⟨?_, ?_, ?_, ?_⟩ <;> exact of_decide_eq_true (by with_unfolding_all rfl)

/-- Witness for C8's amended theorem: the smoothing step applied at the
center of `tieMap`, with every hypothesis discharged concretely. -/
theorem smoothCell_spec_witness :
    (smoothCell (extConst 0) (tieMap, 0) ((1 : ℤ), (1 : ℤ))).1.getLevel
      (((1 : ℤ)) : ℚ) (((1 : ℤ)) : ℚ) =
    firstMajority (tieMap.getLevel (((1 : ℤ)) : ℚ) (((1 : ℤ)) : ℚ))
      (smoothNeighbors tieMap 1 1) :=
  (smoothCell_spec tieMap 0 (extConst 0) 1 1
    (of_decide_eq_true (by with_unfolding_all rfl))
    (of_decide_eq_true (by with_unfolding_all rfl))
    (of_decide_eq_true (by with_unfolding_all rfl))
    (of_decide_eq_true (by with_unfolding_all rfl))
    (of_decide_eq_true (by with_unfolding_all rfl))).1

/-! ## Proofs: lake count (C9) -/

theorem createLakeStep_blobs_length (w h : ℕ)
    (acc : TerrainMap × SeededRandom × List LakeBlob) :
    (createLakeStep w h acc).2.2.length = acc.2.2.length + 1 := by
  obtain ⟨map, rng, blobs⟩ := acc
  simp [createLakeStep]

theorem foldl_lakeStep_length (w h : ℕ) :
    ∀ (l : List ℕ) (acc : TerrainMap × SeededRandom × List LakeBlob),
      ((l.foldl (fun acc _ => createLakeStep w h acc) acc)).2.2.length =
        acc.2.2.length + l.length := by
  intro l
  induction l with
  | nil => intro acc; simp
  | cons x xs ih =>
    intro acc
    rw [List.foldl_cons, ih, createLakeStep_blobs_length, List.length_cons]
    omega

theorem createLakes_blobs_length (map : TerrainMap) (rng : SeededRandom) (n : ℕ) :
    (createLakes map rng n).2.2.length = n := by
  unfold createLakes
  rw [foldl_lakeStep_length]
  simp

/-- The generator's lake phase places one blob per loop iteration, and the
loop count passed by `generateTerrain` is `Math.max(1,
Math.floor(opts.waterRatio * 10))`. -/
theorem generateTerrainAux_lakeBlobs_count (cols rows : ℕ)
    (options : GeneratorOptions) (ext : ExtEnv)
    (hlakes : (resolveOptions options).createLakes = true) :
    (generateTerrainAux cols rows options ext).lakeBlobs.length =
      (max 1 ⌊(resolveOptions options).waterRatio * 10⌋).toNat := by
  unfold generateTerrainAux
  simp only [hlakes, if_true]
  rw [createLakes_blobs_length]

/-- C9 (amended): with `createLakes` enabled, `generateTerrain` places
exactly `max(1, ⌊waterRatio × 10⌋)` elliptical water blobs (not
`⌈waterRatio × 10⌉`: the source floors and then clamps up to 1). -/
theorem generate_lake_count (cols rows : ℕ) (options : GeneratorOptions)
    (ext : ExtEnv) (hlakes : (resolveOptions options).createLakes = true) :
    (generateTerrainAux cols rows options ext).lakeBlobs.length =
      (max 1 ⌊(resolveOptions options).waterRatio * 10⌋).toNat :=
  generateTerrainAux_lakeBlobs_count cols rows options ext hlakes

/-- Witness for C9's amended theorem at the concrete options
`genOptionsLakes` (default `waterRatio`, lakes on). -/
theorem generate_lake_count_witness :
    (generateTerrainAux 8 8 genOptionsLakes (extConst 0)).lakeBlobs.length =
      (max 1 ⌊(resolveOptions genOptionsLakes).waterRatio * 10⌋).toNat :=
  generate_lake_count 8 8 genOptionsLakes (extConst 0) rfl

/-- Counterexample for C9 as stated: at the default `waterRatio = 0.15`
the generator places `max(1, ⌊1.5⌋) = 1` blob, while the claim's formula
`⌈waterRatio × 10⌉` demands 2. -/
theorem lake_count_counterexample :
    (resolveOptions genOptionsLakes).waterRatio = 0.15 ∧
    (generateTerrainAux 8 8 genOptionsLakes (extConst 0)).lakeBlobs.length = 1 ∧
    (⌈(resolveOptions genOptionsLakes).waterRatio * 10⌉).toNat = 2 := by
  have hratio : (resolveOptions genOptionsLakes).waterRatio = 0.15 := rfl
  refine ⟨hratio, ?_, ?_⟩
  · rw [generateTerrainAux_lakeBlobs_count 8 8 genOptionsLakes (extConst 0) rfl, hratio]
    norm_num
  · rw [hratio]
    have hceil : ⌈(0.15 : ℚ) * 10⌉ = 2 := by
      rw [Int.ceil_eq_iff]
      norm_num
    rw [hceil]
    rfl

/-! ## Proofs: generator determinism (C2) -/

theorem TerrainMap.levelsEq_refl (m : TerrainMap) : m.levelsEq m :=
  ⟨rfl, rfl, fun _ _ => rfl⟩

theorem TerrainMap.getLevel_congr {m1 m2 : TerrainMap} (h : m1.levelsEq m2)
    (row col : ℚ) : m1.getLevel row col = m2.getLevel row col := by
  obtain ⟨hw, hh, hc⟩ := h
  unfold TerrainMap.getLevel TerrainMap.get
  rw [hw, hh]
  by_cases h1 : row < 0 ∨ row ≥ ((m2.height : ℕ) : ℚ) ∨ col < 0 ∨
      col ≥ ((m2.width : ℕ) : ℚ)
  · rw [if_pos h1, if_pos h1]
  · rw [if_neg h1, if_neg h1]
    by_cases h2 : row.den = 1 ∧ col.den = 1
    · rw [if_pos h2, if_pos h2]
      exact hc _ _
    · rw [if_neg h2, if_neg h2]

theorem TerrainMap.set_levelsEq {m1 m2 : TerrainMap} (h : m1.levelsEq m2)
    (row col : ℚ) (lvl : TerrainLevel) (v1 v2 : ℚ) :
    (m1.set row col lvl v1).levelsEq (m2.set row col lvl v2) := by
  obtain ⟨hw, hh, hc⟩ := h
  refine ⟨by rw [TerrainMap.width_set, TerrainMap.width_set, hw],
    by rw [TerrainMap.height_set, TerrainMap.height_set, hh], ?_⟩
  intro r c
  unfold TerrainMap.set
  rw [hw, hh]
  by_cases h1 : (0 : ℚ) ≤ row ∧ row < ((m2.height : ℕ) : ℚ) ∧ (0 : ℚ) ≤ col ∧
      col < ((m2.width : ℕ) : ℚ)
  · rw [if_pos h1, if_pos h1]
    by_cases h2 : row.den = 1 ∧ col.den = 1
    · rw [if_pos h2, if_pos h2]
      simp only []
      by_cases h3 : r = row.num ∧ c = col.num
      · rw [if_pos h3, if_pos h3]
      · rw [if_neg h3, if_neg h3]
        exact hc r c
    · rw [if_neg h2, if_neg h2]
      exact hc r c
  · rw [if_neg h1, if_neg h1]
    exact hc r c

theorem smoothCell_levelsEq (ext1 ext2 : ExtEnv) (acc1 acc2 : TerrainMap × ℕ)
    (h : acc1.1.levelsEq acc2.1) (rc : ℤ × ℤ) :
    (smoothCell ext1 acc1 rc).1.levelsEq (smoothCell ext2 acc2 rc).1 := by
  obtain ⟨m1, k1⟩ := acc1
  obtain ⟨m2, k2⟩ := acc2
  obtain ⟨r, c⟩ := rc
  simp only [] at h
  have hlev : m1.getLevel (r : ℚ) (c : ℚ) = m2.getLevel (r : ℚ) (c : ℚ) :=
    TerrainMap.getLevel_congr h _ _
  have hnb : smoothNeighbors m1 r c = smoothNeighbors m2 r c := by
    unfold smoothNeighbors
    rw [TerrainMap.getLevel_congr h, TerrainMap.getLevel_congr h,
      TerrainMap.getLevel_congr h, TerrainMap.getLevel_congr h]
  simp only [smoothCell]
  rw [hlev, hnb]
  by_cases hcnt : ((smoothNeighbors m2 r c).filter
      (fun n => n = m2.getLevel (r : ℚ) (c : ℚ))).length ≤ 1
  · rw [if_pos hcnt, if_pos hcnt]
    by_cases hne : smoothMaxLevel (m2.getLevel (r : ℚ) (c : ℚ))
        (smoothNeighbors m2 r c) ≠ m2.getLevel (r : ℚ) (c : ℚ)
    · rw [if_pos hne, if_pos hne]
      exact TerrainMap.set_levelsEq h _ _ _ _ _
    · rw [if_neg hne, if_neg hne]
      exact h
  · rw [if_neg hcnt, if_neg hcnt]
    exact h

theorem foldl_smoothCell_levelsEq (ext1 ext2 : ExtEnv) :
    ∀ (l : List (ℤ × ℤ)) (acc1 acc2 : TerrainMap × ℕ), acc1.1.levelsEq acc2.1 →
      (l.foldl (smoothCell ext1) acc1).1.levelsEq
        (l.foldl (smoothCell ext2) acc2).1 := by
  intro l
  induction l with
  | nil => intro acc1 acc2 h; exact h
  | cons x xs ih =>
    intro acc1 acc2 h
    rw [List.foldl_cons, List.foldl_cons]
    exact ih _ _ (smoothCell_levelsEq ext1 ext2 acc1 acc2 h x)

theorem smoothTerrain_levelsEq {m1 m2 : TerrainMap} (h : m1.levelsEq m2)
    (ext1 ext2 : ExtEnv) (k1 k2 : ℕ) :
    (smoothTerrain m1 ext1 k1).1.levelsEq (smoothTerrain m2 ext2 k2).1 := by
  unfold smoothTerrain
  rw [h.1, h.2.1]
  exact foldl_smoothCell_levelsEq ext1 ext2 _ _ _
    (foldl_smoothCell_levelsEq ext1 ext2 _ _ _ h)

/-- C2 (amended): for every cols, rows and options whose merged seed is
nonzero, two calls of `generateTerrain` with identical arguments yield
grids with identical dimensions and the same kind in every cell, whatever
`Math.random` / `Date.now` return — the only remaining ambient randomness
is the cosmetic variation of cells rewritten by the smoothing passes,
which the source draws from `Math.random` rather than the seeded LCG (and
a supplied seed of 0 falls back to `Math.random`-based seeding). -/
theorem generate_kinds_deterministic (cols rows : ℕ) (options : GeneratorOptions)
    (hseed : (resolveOptions options).seed ≠ 0) (ext1 ext2 : ExtEnv) :
    (generateTerrain cols rows options ext1).levelsEq
      (generateTerrain cols rows options ext2) := by
  unfold generateTerrain generateTerrainAux
  simp only [SeededRandom.create, if_neg hseed]
  exact smoothTerrain_levelsEq (TerrainMap.levelsEq_refl _) ext1 ext2 0 0

/-- Witness for C2's amended theorem: a 1×1 generation with the nonzero
seed 3, under two different ambient-randomness environments. -/
theorem generate_kinds_deterministic_witness :
    (generateTerrain 1 1 genOptionsSeed3 (extConst 0)).levelsEq
      (generateTerrain 1 1 genOptionsSeed3 (extConst (1/2))) :=
  generate_kinds_deterministic 1 1 genOptionsSeed3
    (by rw [show (resolveOptions genOptionsSeed3).seed = 3 from rfl]; norm_num)
    (extConst 0) (extConst (1/2))

set_option maxRecDepth 12000 in
/-- Counterexample for C2 as stated: (1) with the supplied seed 0 the
generator seeds its LCG from `Math.random() * 100000`, so two calls with
identical arguments disagree already in cell (0,0) of a 1×1 map; (2) even
with the nonzero supplied seed 3, the two smoothing passes draw the
rewritten cell's cosmetic variation from `Math.random`, so two calls on a
5×5 map produce different cells at (2,2) — although the per-cell kinds
agree, the grids are not bit-identical. -/
theorem generate_determinism_counterexample :
    genOptionsSeed0.seed = some 0 ∧
    (generateTerrain 1 1 genOptionsSeed0 (extConst (1/2))).cells 0 0 ≠
      (generateTerrain 1 1 genOptionsSeed0 (extConst (1/4))).cells 0 0 ∧
    genOptionsSeed3.seed = some 3 ∧
    (generateTerrain 5 5 genOptionsSeed3 (extConst 0)).cells 2 2 ≠
      (generateTerrain 5 5 genOptionsSeed3 (extConst (1/2))).cells 2 2 ∧
    (generateTerrain 5 5 genOptionsSeed3 (extConst 0)).getLevel 2 2 =
      (generateTerrain 5 5 genOptionsSeed3 (extConst (1/2))).getLevel 2 2 := by
  refine ⟨rfl, ?_, rfl, ?_, ?_⟩ <;> exact of_decide_eq_true (by with_unfolding_all rfl)

/-! ## Proofs: pathfinding engine basics -/

theorem popMin_perm (f : Cell → ℚ) :
    ∀ (t : List Cell) (c : Cell),
      List.Perm ((popMin f c t).1 :: (popMin f c t).2) (c :: t) := by
  intro t
  induction t with
  | nil => intro c; simp [popMin]
  | cons d t ih =>
    intro c
    show List.Perm
      ((let (m, rest) := popMin f d t
        if f m < f c then (m, c :: rest) else (c, d :: t)).1 ::
       (let (m, rest) := popMin f d t
        if f m < f c then (m, c :: rest) else (c, d :: t)).2) (c :: d :: t)
    by_cases h : f (popMin f d t).1 < f c
    · simp only [if_pos h]
      exact ((List.Perm.swap c (popMin f d t).1 (popMin f d t).2).trans
        (List.Perm.cons c (ih d))).symm.symm
    · simp only [if_neg h]
      exact List.Perm.refl _

theorem popMin_fst_mem (f : Cell → ℚ) (c : Cell) (t : List Cell) :
    (popMin f c t).1 ∈ c :: t :=
  (popMin_perm f t c).mem_iff.mp (List.mem_cons_self _ _)

theorem popMin_snd_sub (f : Cell → ℚ) (c : Cell) (t : List Cell) :
    ∀ x ∈ (popMin f c t).2, x ∈ c :: t := by
  intro x hx
  exact (popMin_perm f t c).mem_iff.mp (List.mem_cons_of_mem _ hx)

theorem popMin_cons_nodup (f : Cell → ℚ) (c : Cell) (t : List Cell)
    (h : (c :: t).Nodup) : ((popMin f c t).1 :: (popMin f c t).2).Nodup :=
  (popMin_perm f t c).nodup_iff.mpr h

theorem popMin_mem_split (f : Cell → ℚ) (c : Cell) (t : List Cell)
    (x : Cell) (hx : x ∈ c :: t) :
    x = (popMin f c t).1 ∨ x ∈ (popMin f c t).2 := by
  have := (popMin_perm f t c).mem_iff.mpr hx
  rcases List.mem_cons.mp this with h | h
  · exact Or.inl h
  · exact Or.inr h

theorem getNeighbors_mem (pf : Pathfinding) (a b : Cell)
    (h : b ∈ pf.getNeighbors a) :
    pf.isValidCell b = true ∧
      ∃ dir ∈ directions, b = (a.1 + dir.1, a.2 + dir.2) := by
  unfold Pathfinding.getNeighbors at h
  rw [List.mem_filterMap] at h
  obtain ⟨dir, hdir, hb⟩ := h
  by_cases hv : pf.isValidCell (a.1 + dir.1, a.2 + dir.2) = true
  · rw [if_pos hv] at hb
    cases hb
    exact ⟨hv, dir, hdir, rfl⟩
  · rw [if_neg hv] at hb
    cases hb

theorem sqrt2Const_pos : 0 < sqrt2Const := by
  norm_num [sqrt2Const]

theorem getDistance_offset (a : Cell) (dx dy : ℤ) :
    getDistance a (a.1 + dx, a.2 + dy) =
      |(dx : ℚ)| + |(dy : ℚ)| + (sqrt2Const - 2) * min |(dx : ℚ)| |(dy : ℚ)| := by
  unfold getDistance
  have h1 : (a.1 : ℚ) - ((a.1 + dx : ℤ) : ℚ) = -(dx : ℚ) := by push_cast; ring
  have h2 : (a.2 : ℚ) - ((a.2 + dy : ℤ) : ℚ) = -(dy : ℚ) := by push_cast; ring
  simp only [h1, h2, abs_neg]

theorem getDistance_pos (pf : Pathfinding) (a b : Cell)
    (h : b ∈ pf.getNeighbors a) : 0 < getDistance a b := by
  obtain ⟨-, dir, hdir, hb⟩ := getNeighbors_mem pf a b h
  subst hb
  have hs2 := sqrt2Const_pos
  fin_cases hdir <;>
    · rw [getDistance_offset]
      norm_num [sqrt2Const]

/-- The two possible outcomes of the neighbor-loop body: the state is
unchanged, or the neighbor was admitted and relaxed (with the push exactly
when it was not yet open). -/
theorem processNeighbor_spec (pf : Pathfinding) (endCell current : Cell)
    (st : SearchState) (nb : Cell) :
    processNeighbor pf endCell current st nb = st ∨
    (nb ∉ st.closedList ∧ pf.stepOK current nb = true ∧
      (¬ nb ∈ st.openList ∨ st.g current + getDistance current nb < st.g nb) ∧
      processNeighbor pf endCell current st nb =
        { g := fun cell => if cell = nb then
              st.g current + getDistance current nb else st.g cell
          h := fun cell => if cell = nb then getDistance nb endCell else st.h cell
          f := fun cell => if cell = nb then
              st.g current + getDistance current nb + getDistance nb endCell
            else st.f cell
          parent := fun cell => if cell = nb then some current else st.parent cell
          openList := if ¬ nb ∈ st.openList then st.openList ++ [nb] else st.openList
          closedList := st.closedList }) := by
  unfold processNeighbor
  by_cases h1 : nb ∈ st.closedList
  · rw [if_pos h1]
    exact Or.inl rfl
  · rw [if_neg h1]
    by_cases h2 : pf.stepOK current nb = true
    · rw [if_pos h2]
      by_cases h3 : ¬ nb ∈ st.openList ∨
          st.g current + getDistance current nb < st.g nb
      · rw [if_pos h3]
        exact Or.inr ⟨h1, h2, h3, rfl⟩
      · rw [if_neg h3]
        exact Or.inl rfl
    · rw [if_neg h2]
      exact Or.inl rfl

theorem pn_closedList (pf : Pathfinding) (endCell current : Cell)
    (st : SearchState) (nb : Cell) :
    (processNeighbor pf endCell current st nb).closedList = st.closedList := by
  rcases processNeighbor_spec pf endCell current st nb with h | ⟨-, -, -, h⟩ <;> rw [h]

theorem pn_open_mono (pf : Pathfinding) (endCell current : Cell)
    (st : SearchState) (nb : Cell) (x : Cell) (hx : x ∈ st.openList) :
    x ∈ (processNeighbor pf endCell current st nb).openList := by
  rcases processNeighbor_spec pf endCell current st nb with h | ⟨-, -, -, h⟩
  · rw [h]; exact hx
  · rw [h]
    simp only []
    split
    · exact List.mem_append.mpr (Or.inl hx)
    · exact hx

theorem pn_open_char (pf : Pathfinding) (endCell current : Cell)
    (st : SearchState) (nb : Cell) (x : Cell)
    (hx : x ∈ (processNeighbor pf endCell current st nb).openList) :
    x ∈ st.openList ∨
      (x = nb ∧ nb ∉ st.closedList ∧ pf.stepOK current nb = true ∧
        nb ∉ st.openList) := by
  rcases processNeighbor_spec pf endCell current st nb with h | ⟨h1, h2, -, h⟩
  · rw [h] at hx; exact Or.inl hx
  · rw [h] at hx
    simp only [] at hx
    by_cases h4 : nb ∈ st.openList
    · rw [if_neg (by simpa using h4)] at hx
      exact Or.inl hx
    · rw [if_pos (by simpa using h4)] at hx
      rcases List.mem_append.mp hx with hx | hx
      · exact Or.inl hx
      · simp only [List.mem_singleton] at hx
        exact Or.inr ⟨hx, h1, h2, h4⟩

theorem pn_nodup (pf : Pathfinding) (endCell current : Cell)
    (st : SearchState) (nb : Cell) (h : st.openList.Nodup) :
    (processNeighbor pf endCell current st nb).openList.Nodup := by
  rcases processNeighbor_spec pf endCell current st nb with hs | ⟨-, -, -, hs⟩
  · rw [hs]; exact h
  · rw [hs]
    simp only []
    split
    · next h4 =>
      rw [List.nodup_append]
      exact ⟨h, List.nodup_singleton _, by
        intro a ha hb
        simp only [List.mem_singleton] at hb
        subst hb
        exact h4 ha⟩
    · exact h

theorem pn_puts (pf : Pathfinding) (endCell current : Cell)
    (st : SearchState) (nb : Cell) (h1 : nb ∉ st.closedList)
    (h2 : pf.stepOK current nb = true) :
    nb ∈ (processNeighbor pf endCell current st nb).openList := by
  by_cases h4 : nb ∈ st.openList
  · exact pn_open_mono pf endCell current st nb nb h4
  · unfold processNeighbor
    rw [if_neg h1, if_pos h2, if_pos (Or.inl h4)]
    simp only []
    rw [if_pos h4]
    exact List.mem_append.mpr (Or.inr (List.mem_singleton.mpr rfl))

theorem getNeighbors_ne (pf : Pathfinding) (a b : Cell)
    (h : b ∈ pf.getNeighbors a) : b ≠ a := by
  obtain ⟨-, dir, hdir, hb⟩ := getNeighbors_mem pf a b h
  subst hb
  fin_cases hdir <;>
    · intro hcon
      rw [Prod.ext_iff] at hcon
      obtain ⟨h1, h2⟩ := hcon
      omega

theorem canStep_ne (pf : Pathfinding) (a b : Cell) (h : canStep pf a b) :
    b ≠ a :=
  getNeighbors_ne pf a b h.1

theorem valid_mem_cellsFinset (pf : Pathfinding) (c : Cell)
    (h : pf.isValidCell c = true) : c ∈ cellsFinset pf := by
  unfold Pathfinding.isValidCell at h
  simp only [decide_eq_true_eq] at h
  unfold cellsFinset
  rw [Finset.mem_product, Finset.mem_Icc, Finset.mem_Icc]
  omega

theorem cellsFinset_card (pf : Pathfinding) :
    (cellsFinset pf).card = pf.gridWidth * pf.gridHeight := by
  unfold cellsFinset
  rw [Finset.card_product, Int.card_Icc, Int.card_Icc]
  have h1 : ((pf.gridWidth : ℤ) - 1 + 1 - 0).toNat = pf.gridWidth := by omega
  have h2 : ((pf.gridHeight : ℤ) - 1 + 1 - 0).toNat = pf.gridHeight := by omega
  rw [h1, h2]

theorem closed_card_le (pf : Pathfinding) (s : Cell) (st : SearchState)
    (hinv : AStarInv pf s st) :
    st.closedList.card ≤ pf.gridWidth * pf.gridHeight := by
  rw [← cellsFinset_card pf]
  exact Finset.card_le_card (fun c hc => valid_mem_cellsFinset pf c (hinv.closed_reach c hc).1)

theorem pn_preserves_mid (pf : Pathfinding) (s e current : Cell)
    (st : SearchState) (nb : Cell) (hmid : AStarInvMid pf s current st)
    (hnb : nb ∈ pf.getNeighbors current) :
    AStarInvMid pf s current (processNeighbor pf e current st nb) := by
  rcases processNeighbor_spec pf e current st nb with heq | ⟨h1, h2, h3, heq⟩
  · rw [heq]; exact hmid
  · have hcanstep : canStep pf current nb := ⟨hnb, h2⟩
    have hdistpos : 0 < getDistance current nb := getDistance_pos pf current nb hnb
    have hnbc : nb ≠ current := getNeighbors_ne pf current nb hnb
    have hns : nb ≠ s := by
      intro hcon
      subst hcon
      rcases hmid.mem_s with hopen | hclosed
      · rcases h3 with h3 | h3
        · exact h3 hopen
        · rw [hmid.g_s] at h3
          have hg0 := hmid.g_nonneg current
          linarith
      · exact h1 hclosed
    have hreach_nb : Reachable pf s nb :=
      Relation.ReflTransGen.tail (hmid.closed_reach current hmid.cur_closed).2 hcanstep
    have hvalid_nb : pf.isValidCell nb = true := (getNeighbors_mem pf current nb hnb).1
    rw [heq]
    refine ⟨?_, ?_, ?_, ?_, ?_, ?_, ?_, ?_, ?_, ?_, ?_, ?_, ?_, ?_⟩
    · intro c hc
      simp only [] at hc
      by_cases hin : nb ∈ st.openList
      · rw [if_neg (by simpa using hin)] at hc
        exact hmid.open_reach c hc
      · rw [if_pos (by simpa using hin)] at hc
        rcases List.mem_append.mp hc with hc | hc
        · exact hmid.open_reach c hc
        · rw [List.mem_singleton] at hc
          subst hc
          exact ⟨hvalid_nb, hreach_nb⟩
    · intro c hc
      exact hmid.closed_reach c hc
    · intro c hc
      simp only [] at hc ⊢
      by_cases hin : nb ∈ st.openList
      · rw [if_neg (by simpa using hin)] at hc
        exact hmid.disj c hc
      · rw [if_pos (by simpa using hin)] at hc
        rcases List.mem_append.mp hc with hc | hc
        · exact hmid.disj c hc
        · rw [List.mem_singleton] at hc
          subst hc
          exact h1
    · simp only []
      by_cases hin : nb ∈ st.openList
      · rw [if_neg (by simpa using hin)]
        exact hmid.nodup
      · rw [if_pos (by simpa using hin)]
        rw [List.nodup_append]
        exact ⟨hmid.nodup, List.nodup_singleton _, by
          intro a ha hb
          rw [List.mem_singleton] at hb
          subst hb
          exact hin ha⟩
    · rcases hmid.mem_s with hs | hs
      · left
        simp only []
        split
        · exact List.mem_append.mpr (Or.inl hs)
        · exact hs
      · right
        exact hs
    · simp only []
      rw [if_neg (fun hcon => hns hcon.symm)]
      exact hmid.parent_s
    · intro c hc hcs
      simp only [] at hc ⊢
      by_cases hcnb : c = nb
      · rw [if_pos hcnb]
        rfl
      · rw [if_neg hcnb]
        apply hmid.parent_some c ?_ hcs
        rcases hc with hc | hc
        · left
          by_cases hin : nb ∈ st.openList
          · rwa [if_neg (by simpa using hin)] at hc
          · rw [if_pos (by simpa using hin)] at hc
            rcases List.mem_append.mp hc with hc | hc
            · exact hc
            · rw [List.mem_singleton] at hc
              exact absurd hc hcnb
        · right
          exact hc
    · intro c p hp
      simp only [] at hp
      by_cases hcnb : c = nb
      · rw [if_pos hcnb] at hp
        injection hp with hp2
        subst hp2
        subst hcnb
        exact hcanstep
      · rw [if_neg hcnb] at hp
        exact hmid.parent_step c p hp
    · intro c p hp
      simp only [] at hp ⊢
      by_cases hcnb : c = nb
      · rw [if_pos hcnb] at hp
        injection hp with hp2
        subst hp2
        exact hmid.cur_closed
      · rw [if_neg hcnb] at hp
        exact hmid.parent_closed c p hp
    · intro c p hp
      simp only [] at hp ⊢
      by_cases hcnb : c = nb
      · rw [if_pos hcnb] at hp
        injection hp with hp2
        subst hp2
        subst hcnb
        rw [if_pos rfl, if_neg (fun hcon => hnbc hcon.symm)]
        have := hmid.g_nonneg current
        linarith
      · rw [if_neg hcnb] at hp
        have hlt := hmid.parent_g c p hp
        have hpnb : p ≠ nb := by
          intro hcon
          subst hcon
          exact h1 (hmid.parent_closed c _ hp)
        rw [if_neg hcnb, if_neg hpnb]
        exact hlt
    · intro c
      simp only []
      split
      · have := hmid.g_nonneg current
        linarith
      · exact hmid.g_nonneg c
    · simp only []
      rw [if_neg (fun hcon => hns hcon.symm)]
      exact hmid.g_s
    · intro c hc hcne b hstep
      simp only [] at hc ⊢
      rcases hmid.frontier_old c hc hcne b hstep with hb | hb
      · left
        split
        · exact List.mem_append.mpr (Or.inl hb)
        · exact hb
      · right
        exact hb
    · exact hmid.cur_closed

theorem fold_pn_closed (pf : Pathfinding) (e current : Cell) :
    ∀ (nbs : List Cell) (st : SearchState),
      ((nbs.foldl (processNeighbor pf e current) st)).closedList = st.closedList := by
  intro nbs
  induction nbs with
  | nil => intro st; rfl
  | cons x xs ih =>
    intro st
    rw [List.foldl_cons, ih, pn_closedList]

theorem fold_pn_open_mono (pf : Pathfinding) (e current : Cell) :
    ∀ (nbs : List Cell) (st : SearchState) (x : Cell), x ∈ st.openList →
      x ∈ ((nbs.foldl (processNeighbor pf e current) st)).openList := by
  intro nbs
  induction nbs with
  | nil => intro st x hx; exact hx
  | cons y ys ih =>
    intro st x hx
    rw [List.foldl_cons]
    exact ih _ x (pn_open_mono pf e current st y x hx)

theorem fold_pn_preserves_mid (pf : Pathfinding) (s e current : Cell) :
    ∀ (nbs : List Cell) (st : SearchState), (∀ b ∈ nbs, b ∈ pf.getNeighbors current) →
      AStarInvMid pf s current st →
      AStarInvMid pf s current ((nbs.foldl (processNeighbor pf e current) st)) := by
  intro nbs
  induction nbs with
  | nil => intro st _ h; exact h
  | cons x xs ih =>
    intro st hsub h
    rw [List.foldl_cons]
    exact ih _ (fun b hb => hsub b (List.mem_cons_of_mem _ hb))
      (pn_preserves_mid pf s e current st x h (hsub x (List.mem_cons_self _ _)))

theorem fold_pn_settles (pf : Pathfinding) (e current : Cell) :
    ∀ (nbs : List Cell) (st : SearchState) (b : Cell), b ∈ nbs →
      pf.stepOK current b = true →
      b ∈ ((nbs.foldl (processNeighbor pf e current) st)).openList ∨
        b ∈ ((nbs.foldl (processNeighbor pf e current) st)).closedList := by
  intro nbs
  induction nbs with
  | nil => intro st b hb; exact absurd hb (List.not_mem_nil _)
  | cons x xs ih =>
    intro st b hb hok
    rw [List.foldl_cons]
    rcases List.mem_cons.mp hb with hb | hb
    · subst hb
      by_cases hc : b ∈ st.closedList
      · right
        rw [fold_pn_closed, pn_closedList]
        exact hc
      · left
        exact fold_pn_open_mono pf e current xs _ b (pn_puts pf e current st b hc hok)
    · exact ih _ b hb hok

theorem expand_establishes_inv (pf : Pathfinding) (s e current : Cell)
    (st : SearchState) (hmid : AStarInvMid pf s current st) :
    AStarInv pf s
      (((pf.getNeighbors current).foldl (processNeighbor pf e current) st)) := by
  have hres := fold_pn_preserves_mid pf s e current (pf.getNeighbors current) st
    (fun b hb => hb) hmid
  refine ⟨hres.open_reach, hres.closed_reach, hres.disj, hres.nodup, hres.mem_s,
    hres.parent_s, hres.parent_some, hres.parent_step, hres.parent_closed,
    hres.parent_g, hres.g_nonneg, hres.g_s, ?_⟩
  intro c hc b hstep
  by_cases hcur : c = current
  · subst hcur
    exact fold_pn_settles pf e c (pf.getNeighbors c) st b hstep.1 hstep.2
  · exact hres.frontier_old c hc hcur b hstep

theorem pop_establishes_mid (pf : Pathfinding) (s : Cell) (st : SearchState)
    (c : Cell) (rest : List Cell) (hopen : st.openList = c :: rest)
    (hinv : AStarInv pf s st) :
    AStarInvMid pf s (popMin st.f c rest).1
      { st with openList := (popMin st.f c rest).2,
                closedList := insert (popMin st.f c rest).1 st.closedList } := by
  set current := (popMin st.f c rest).1 with hcur
  set remaining := (popMin st.f c rest).2 with hrem
  have hcur_open : current ∈ st.openList := by
    rw [hopen]
    exact popMin_fst_mem st.f c rest
  have hrem_sub : ∀ x ∈ remaining, x ∈ st.openList := by
    intro x hx
    rw [hopen]
    exact popMin_snd_sub st.f c rest x hx
  have hnodup_pop : (current :: remaining).Nodup := by
    apply popMin_cons_nodup
    rw [← hopen]
    exact hinv.nodup
  have hcur_not_rem : current ∉ remaining := (List.nodup_cons.mp hnodup_pop).1
  refine ⟨?_, ?_, ?_, ?_, ?_, ?_, ?_, ?_, ?_, ?_, ?_, ?_, ?_, ?_⟩
  · intro x hx
    exact hinv.open_reach x (hrem_sub x hx)
  · intro x hx
    simp only [Finset.mem_insert] at hx
    rcases hx with hx | hx
    · subst hx
      exact hinv.open_reach current hcur_open
    · exact hinv.closed_reach x hx
  · intro x hx
    simp only [Finset.mem_insert]
    intro hcon
    rcases hcon with hcon | hcon
    · subst hcon
      exact hcur_not_rem hx
    · exact hinv.disj x (hrem_sub x hx) hcon
  · exact (List.nodup_cons.mp hnodup_pop).2
  · rcases hinv.mem_s with hs | hs
    · rw [hopen] at hs
      rcases popMin_mem_split st.f c rest s hs with hs2 | hs2
      · right
        simp only [Finset.mem_insert]
        exact Or.inl hs2
      · left
        exact hs2
    · right
      simp only [Finset.mem_insert]
      exact Or.inr hs
  · exact hinv.parent_s
  · intro x hx hxs
    apply hinv.parent_some x ?_ hxs
    rcases hx with hx | hx
    · exact Or.inl (hrem_sub x hx)
    · simp only [Finset.mem_insert] at hx
      rcases hx with hx | hx
      · subst hx
        exact Or.inl hcur_open
      · exact Or.inr hx
  · exact hinv.parent_step
  · intro x p hp
    simp only [Finset.mem_insert]
    exact Or.inr (hinv.parent_closed x p hp)
  · exact hinv.parent_g
  · exact hinv.g_nonneg
  · exact hinv.g_s
  · intro x hx hxne b hstep
    simp only [Finset.mem_insert] at hx
    rcases hx with hx | hx
    · exact absurd hx hxne
    · rcases hinv.frontier x hx b hstep with hb | hb
      · rw [hopen] at hb
        rcases popMin_mem_split st.f c rest b hb with hb2 | hb2
        · right
          simp only [Finset.mem_insert]
          exact Or.inl hb2
        · exact Or.inl hb2
      · right
        simp only [Finset.mem_insert]
        exact Or.inr hb
  · simp [Finset.mem_insert]

theorem searchStart_inv (pf : Pathfinding) (s : Cell)
    (hs : pf.isValidCell s = true) : AStarInv pf s (searchStart s) := by
  refine ⟨?_, ?_, ?_, ?_, ?_, ?_, ?_, ?_, ?_, ?_, ?_, ?_, ?_⟩
  · intro c hc
    simp only [searchStart, List.mem_singleton] at hc
    subst hc
    exact ⟨hs, Relation.ReflTransGen.refl⟩
  · intro c hc
    simp [searchStart] at hc
  · intro c hc
    simp [searchStart]
  · simp [searchStart]
  · left
    simp [searchStart]
  · rfl
  · intro c hc hcs
    rcases hc with hc | hc
    · simp only [searchStart, List.mem_singleton] at hc
      exact absurd hc hcs
    · simp [searchStart] at hc
  · intro c p hp
    simp [searchStart] at hp
  · intro c p hp
    simp [searchStart] at hp
  · intro c p hp
    simp [searchStart] at hp
  · intro c
    exact le_refl 0
  · rfl
  · intro c hc
    simp [searchStart] at hc

theorem reconstruct_chain (pf : Pathfinding) (s : Cell) (st : SearchState)
    (hinv : AStarInv pf s st) :
    ∀ (fuel : ℕ) (c : Cell), (c ∈ st.openList ∨ c ∈ st.closedList) →
      (st.closedList.filter (fun q => st.g q < st.g c)).card < fuel →
      ∃ chain : List Cell, chain ≠ [] ∧ chain.head? = some s ∧
        chain.getLast? = some c ∧ List.Chain' (canStep pf) chain ∧
        reconstructPath pf st.parent fuel c =
          chain.map (fun x => pf.gridToWorld x.1 x.2) := by
  intro fuel
  induction fuel with
  | zero => intro c _ hcard; omega
  | succ n ih =>
    intro c hc hcard
    cases hpar : st.parent c with
    | none =>
      have hcs : c = s := by
        by_contra hne
        have := hinv.parent_some c hc hne
        rw [hpar] at this
        simp at this
      subst hcs
      refine ⟨[c], by simp, by simp, by simp, List.chain'_singleton c, ?_⟩
      unfold reconstructPath
      rw [hpar]
      simp
    | some p =>
      have hpc : p ∈ st.closedList := hinv.parent_closed c p hpar
      have hglt : st.g p < st.g c := hinv.parent_g c p hpar
      have hsubcard : (st.closedList.filter (fun q => st.g q < st.g p)).card <
          (st.closedList.filter (fun q => st.g q < st.g c)).card := by
        apply Finset.card_lt_card
        rw [Finset.ssubset_iff_of_subset]
        · exact ⟨p, Finset.mem_filter.mpr ⟨hpc, hglt⟩, by
            intro hmem
            rw [Finset.mem_filter] at hmem
            exact absurd hmem.2 (lt_irrefl _)⟩
        · intro q hq
          rw [Finset.mem_filter] at hq ⊢
          exact ⟨hq.1, hq.2.trans hglt⟩
      obtain ⟨chain, hne, hhead, hlast, hchain, hrec⟩ :=
        ih p (Or.inr hpc) (by omega)
      refine ⟨chain ++ [c], by simp, ?_, by simp, ?_, ?_⟩
      · cases chain with
        | nil => exact absurd rfl hne
        | cons d t =>
          simp only [List.cons_append, List.head?_cons] at hhead ⊢
          exact hhead
      · rw [List.chain'_append]
        refine ⟨hchain, List.chain'_singleton c, ?_⟩
        intro x hx y hy
        simp only [List.head?_cons, Option.mem_def, Option.some.injEq] at hy
        subst hy
        rw [hlast] at hx
        simp only [Option.mem_def, Option.some.injEq] at hx
        subst hx
        exact hinv.parent_step c p hpar
      · show reconstructPath pf st.parent (n + 1) c = _
        unfold reconstructPath
        rw [hpar]
        simp only []
        rw [hrec, List.map_append]
        rfl

theorem aStarLoop_succ_cons (pf : Pathfinding) (e : Cell) (n : ℕ)
    (st : SearchState) (c : Cell) (rest : List Cell)
    (hopen : st.openList = c :: rest) :
    aStarLoop pf e (n + 1) st =
      if (popMin st.f c rest).1 = e then
        reconstructPath pf st.parent (pf.gridWidth * pf.gridHeight + 1)
          (popMin st.f c rest).1
      else
        aStarLoop pf e n ((pf.getNeighbors (popMin st.f c rest).1).foldl
          (processNeighbor pf e (popMin st.f c rest).1)
          { st with openList := (popMin st.f c rest).2,
                    closedList := insert (popMin st.f c rest).1 st.closedList }) := by
  conv_lhs => rw [aStarLoop]
  rw [hopen]

theorem aStarLoop_nil (pf : Pathfinding) (e : Cell) (fuel : ℕ)
    (st : SearchState) (hopen : st.openList = []) :
    aStarLoop pf e fuel st = [] := by
  cases fuel with
  | zero => rfl
  | succ n =>
    conv_lhs => rw [aStarLoop]
    rw [hopen]

theorem aStarLoop_sound (pf : Pathfinding) (s e : Cell) :
    ∀ (fuel : ℕ) (st : SearchState), AStarInv pf s st →
      aStarLoop pf e fuel st ≠ [] →
      ∃ chain : List Cell, chain ≠ [] ∧ chain.head? = some s ∧
        chain.getLast? = some e ∧ List.Chain' (canStep pf) chain ∧
        aStarLoop pf e fuel st = chain.map (fun x => pf.gridToWorld x.1 x.2) := by
  intro fuel
  induction fuel with
  | zero => intro st _ hne; exact absurd rfl hne
  | succ n ih =>
    intro st hinv hne
    cases hopen : st.openList with
    | nil => exact absurd (aStarLoop_nil pf e (n + 1) st hopen) hne
    | cons c rest =>
      rw [aStarLoop_succ_cons pf e n st c rest hopen] at hne ⊢
      by_cases hcur : (popMin st.f c rest).1 = e
      · rw [if_pos hcur] at hne ⊢
        have hmem : (popMin st.f c rest).1 ∈ st.openList := by
          rw [hopen]
          exact popMin_fst_mem _ _ _
        have hcard : (st.closedList.filter
            (fun q => st.g q < st.g ((popMin st.f c rest).1))).card <
            pf.gridWidth * pf.gridHeight + 1 := by
          have h1 : (st.closedList.filter
              (fun q => st.g q < st.g ((popMin st.f c rest).1))).card ≤
              st.closedList.card := Finset.card_filter_le _ _
          have h2 := closed_card_le pf s st hinv
          omega
        obtain ⟨chain, h1, h2, h3, h4, h5⟩ :=
          reconstruct_chain pf s st hinv _ _ (Or.inl hmem) hcard
        rw [hcur] at h3
        exact ⟨chain, h1, h2, h3, h4, h5⟩
      · rw [if_neg hcur] at hne ⊢
        exact ih _ (expand_establishes_inv pf s e _ _
          (pop_establishes_mid pf s st c rest hopen hinv)) hne

theorem aStarLoop_unreachable (pf : Pathfinding) (s e : Cell)
    (hur : ¬ Reachable pf s e) :
    ∀ (fuel : ℕ) (st : SearchState), AStarInv pf s st →
      aStarLoop pf e fuel st = [] := by
  intro fuel
  induction fuel with
  | zero => intro st _; rfl
  | succ n ih =>
    intro st hinv
    cases hopen : st.openList with
    | nil => exact aStarLoop_nil pf e (n + 1) st hopen
    | cons c rest =>
      rw [aStarLoop_succ_cons pf e n st c rest hopen]
      have hmem : (popMin st.f c rest).1 ∈ st.openList := by
        rw [hopen]
        exact popMin_fst_mem _ _ _
      have hcur : (popMin st.f c rest).1 ≠ e := by
        intro hcon
        exact hur (hcon ▸ (hinv.open_reach _ hmem).2)
      rw [if_neg hcur]
      exact ih _ (expand_establishes_inv pf s e _ _
        (pop_establishes_mid pf s st c rest hopen hinv))

theorem frontier_escape (pf : Pathfinding) (s e : Cell) (st : SearchState)
    (hinv : AStarInv pf s st) (he : e ∉ st.closedList) :
    ∀ c, Reachable pf c e → c ∈ st.closedList → st.openList ≠ [] := by
  intro c hreach
  induction hreach using Relation.ReflTransGen.head_induction_on with
  | refl => intro hc; exact absurd hc he
  | head hstep htail ih =>
    intro hc
    rcases hinv.frontier _ hc _ hstep with hb | hb
    · intro hnil
      rw [hnil] at hb
      exact List.not_mem_nil _ hb
    · exact ih hb

theorem aStarLoop_complete (pf : Pathfinding) (s e : Cell)
    (hreach : Reachable pf s e) :
    ∀ (fuel : ℕ) (st : SearchState), AStarInv pf s st →
      e ∉ st.closedList →
      pf.gridWidth * pf.gridHeight + 1 ≤ st.closedList.card + fuel →
      aStarLoop pf e fuel st ≠ [] := by
  intro fuel
  induction fuel with
  | zero =>
    intro st hinv he hcard
    have := closed_card_le pf s st hinv
    omega
  | succ n ih =>
    intro st hinv he hcard
    have hne : st.openList ≠ [] := by
      rcases hinv.mem_s with hs | hs
      · intro hnil
        rw [hnil] at hs
        exact List.not_mem_nil _ hs
      · exact frontier_escape pf s e st hinv he s hreach hs
    cases hopen : st.openList with
    | nil => exact absurd hopen hne
    | cons c rest =>
      rw [aStarLoop_succ_cons pf e n st c rest hopen]
      by_cases hcur : (popMin st.f c rest).1 = e
      · rw [if_pos hcur]
        have hmem : (popMin st.f c rest).1 ∈ st.openList := by
          rw [hopen]
          exact popMin_fst_mem _ _ _
        have hcard2 : (st.closedList.filter
            (fun q => st.g q < st.g ((popMin st.f c rest).1))).card <
            pf.gridWidth * pf.gridHeight + 1 := by
          have h1 : (st.closedList.filter
              (fun q => st.g q < st.g ((popMin st.f c rest).1))).card ≤
              st.closedList.card := Finset.card_filter_le _ _
          have h2 := closed_card_le pf s st hinv
          omega
        obtain ⟨chain, h1, -, -, -, h5⟩ :=
          reconstruct_chain pf s st hinv _ _ (Or.inl hmem) hcard2
        rw [h5]
        intro hcon
        rw [List.map_eq_nil_iff] at hcon
        exact h1 hcon
      · rw [if_neg hcur]
        have hmem : (popMin st.f c rest).1 ∈ st.openList := by
          rw [hopen]
          exact popMin_fst_mem _ _ _
        have hnotc : (popMin st.f c rest).1 ∉ st.closedList :=
          hinv.disj _ hmem
        apply ih
        · exact expand_establishes_inv pf s e _ _
            (pop_establishes_mid pf s st c rest hopen hinv)
        · rw [fold_pn_closed]
          simp only [Finset.mem_insert]
          intro hcon
          rcases hcon with hcon | hcon
          · exact hcur hcon.symm
          · exact he hcon
        · rw [fold_pn_closed]
          simp only []
          rw [Finset.card_insert_of_not_mem hnotc]
          omega

/-- A successful `findPath` call is the image of a chain of admissible
steps from the start cell to the goal cell, one waypoint per cell. -/
theorem findPath_chain (pf : Pathfinding) (sx sy ex ey : ℚ)
    (hne : pf.findPath sx sy ex ey ≠ []) :
    ∃ chain : List Cell, chain ≠ [] ∧
      chain.head? = some (pf.worldToGrid sx sy) ∧
      chain.getLast? = some (pf.worldToGrid ex ey) ∧
      List.Chain' (canStep pf) chain ∧
      pf.findPath sx sy ex ey = chain.map (fun x => pf.gridToWorld x.1 x.2) := by
  unfold Pathfinding.findPath at hne ⊢
  by_cases h1 : pf.isValidCell (pf.worldToGrid sx sy) = true ∧
      pf.isValidCell (pf.worldToGrid ex ey) = true
  · rw [if_neg (not_not_intro h1)] at hne ⊢
    by_cases h2 : pf.walkable (pf.worldToGrid ex ey) = true
    · rw [if_neg (not_not_intro h2)] at hne ⊢
      exact aStarLoop_sound pf (pf.worldToGrid sx sy) (pf.worldToGrid ex ey) _ _
        (searchStart_inv pf _ h1.1) hne
    · rw [if_pos h2] at hne
      exact absurd rfl hne
  · rw [if_pos h1] at hne
    exact absurd rfl hne

theorem not_reachable_of_no_step (pf : Pathfinding) (a b : Cell)
    (hab : a ≠ b) (h : ∀ c ∈ pf.getNeighbors a, pf.stepOK a c = false) :
    ¬ Reachable pf a b := by
  intro hr
  rcases Relation.ReflTransGen.cases_head hr with heq | ⟨c, hstep, -⟩
  · exact hab heq
  · have hf := h c hstep.1
    rw [hstep.2] at hf
    cases hf

/-- C4 (amended): `findPath` returns an empty sequence whenever the start
or end position maps outside the grid, whenever the END cell is
unwalkable (in particular, a goal made Water through `setTerrainLevel` is
unwalkable), and whenever no admissible route connects the two cells; the
start cell's own walkability is not among the checks. -/
theorem findPath_empty_cases :
    (∀ (pf : Pathfinding) (sx sy ex ey : ℚ),
      ¬ (pf.isValidCell (pf.worldToGrid sx sy) = true ∧
         pf.isValidCell (pf.worldToGrid ex ey) = true) →
      pf.findPath sx sy ex ey = []) ∧
    (∀ (pf : Pathfinding) (sx sy ex ey : ℚ),
      ¬ pf.walkable (pf.worldToGrid ex ey) = true →
      pf.findPath sx sy ex ey = []) ∧
    (∀ (pf : Pathfinding) (gx gy : ℤ),
      pf.isValidCell (gx, gy) = true →
      (pf.setTerrainLevel gx gy TerrainLevel.WATER).walkable (gx, gy) = false) ∧
    (∀ (pf : Pathfinding) (sx sy ex ey : ℚ),
      ¬ Reachable pf (pf.worldToGrid sx sy) (pf.worldToGrid ex ey) →
      pf.findPath sx sy ex ey = []) := by
  refine ⟨?_, ?_, ?_, ?_⟩
  · intro pf sx sy ex ey h
    unfold Pathfinding.findPath
    rw [if_pos (by simpa using h)]
  · intro pf sx sy ex ey h
    unfold Pathfinding.findPath
    by_cases h1 : pf.isValidCell (pf.worldToGrid sx sy) = true ∧
        pf.isValidCell (pf.worldToGrid ex ey) = true
    · rw [if_neg (not_not_intro h1), if_pos (by simpa using h)]
    · rw [if_pos (by simpa using h1)]
  · intro pf gx gy hvalid
    unfold Pathfinding.setTerrainLevel
    rw [if_pos hvalid]
    simp
  · intro pf sx sy ex ey h
    unfold Pathfinding.findPath
    by_cases h1 : pf.isValidCell (pf.worldToGrid sx sy) = true ∧
        pf.isValidCell (pf.worldToGrid ex ey) = true
    · rw [if_neg (not_not_intro h1)]
      by_cases h2 : pf.walkable (pf.worldToGrid ex ey) = true
      · rw [if_neg (not_not_intro h2)]
        exact aStarLoop_unreachable pf _ _ h _ _ (searchStart_inv pf _ h1.1)
      · rw [if_pos (by simpa using h2)]
    · rw [if_pos (by simpa using h1)]

/-- Witness for C4's amended theorem: each clause applied concretely —
an out-of-range start, an unwalkable goal, a Water goal cell, and the
unreachable far cell of `pfGap`. -/
theorem findPath_empty_cases_witness :
    pfSmall.findPath (-5) (-5) 16 16 = [] ∧
    pfSmallBlocked.findPath 48 48 16 16 = [] ∧
    (pfSmall.setTerrainLevel 1 0 TerrainLevel.WATER).walkable (1, 0) = false ∧
    pfGap.findPath 16 16 80 16 = [] := by
  refine ⟨?_, ?_, ?_, ?_⟩
  · exact findPath_empty_cases.1 pfSmall (-5) (-5) 16 16
      (by
        intro hcon
        have : pfSmall.isValidCell (pfSmall.worldToGrid (-5) (-5)) = true := hcon.1
        rw [show pfSmall.worldToGrid (-5) (-5) = (-1, -1) from
          of_decide_eq_true (by with_unfolding_all rfl)] at this
        exact absurd this (of_decide_eq_false (by with_unfolding_all rfl)))
  · exact findPath_empty_cases.2.1 pfSmallBlocked 48 48 16 16
      (by
        intro hcon
        rw [show pfSmallBlocked.worldToGrid 16 16 = (0, 0) from
          of_decide_eq_true (by with_unfolding_all rfl)] at hcon
        exact absurd hcon (by
          rw [show pfSmallBlocked.walkable (0, 0) = false from
            of_decide_eq_true (by with_unfolding_all rfl)]
          simp))
  · exact findPath_empty_cases.2.2.1 pfSmall 1 0
      (of_decide_eq_true (by with_unfolding_all rfl))
  · exact findPath_empty_cases.2.2.2 pfGap 16 16 80 16
      (by
        rw [show pfGap.worldToGrid 16 16 = (0, 0) from
          of_decide_eq_true (by with_unfolding_all rfl),
          show pfGap.worldToGrid 80 16 = (2, 0) from
          of_decide_eq_true (by with_unfolding_all rfl)]
        exact not_reachable_of_no_step pfGap (0, 0) (2, 0)
          (of_decide_eq_true (by with_unfolding_all rfl))
          (by
            intro c hc
            rw [show pfGap.getNeighbors (0, 0) = [(1, 0)] from
              of_decide_eq_true (by with_unfolding_all rfl)] at hc
            rw [List.mem_singleton] at hc
            subst hc
            exact of_decide_eq_true (by with_unfolding_all rfl)))

/-- Counterexample for C4 as stated: the start cell (0,0) of
`pfSmallBlocked` is unwalkable, yet `findPath` from it returns a
non-empty sequence — start walkability is never checked. -/
theorem findPath_start_unwalkable_counterexample :
    pfSmallBlocked.walkable (pfSmallBlocked.worldToGrid 16 16) = false ∧
    pfSmallBlocked.findPath 16 16 48 48 ≠ [] := by
  constructor
  · exact of_decide_eq_true (by with_unfolding_all rfl)
  · exact of_decide_eq_true (by with_unfolding_all rfl)

theorem floor_int_add_half (z : ℤ) : ⌊(z : ℚ) + 1 / 2⌋ = z := by
  rw [Int.floor_eq_iff]
  constructor
  · linarith
  · linarith

/-- Round-tripping a cell through its world-space center recovers the
cell, for any positive cell size. -/
theorem worldToGrid_gridToWorld (pf : Pathfinding) (hcs : 0 < pf.cellSize)
    (gx gy : ℤ) :
    pf.worldToGrid (pf.gridToWorld gx gy).1 (pf.gridToWorld gx gy).2 =
      (gx, gy) := by
  unfold Pathfinding.worldToGrid Pathfinding.gridToWorld
  have hne : pf.cellSize ≠ 0 := ne_of_gt hcs
  have h : ∀ z : ℤ, ((z : ℚ) * pf.cellSize + pf.cellSize / 2) / pf.cellSize =
      (z : ℚ) + 1 / 2 := by
    intro z
    field_simp
    ring
  simp only []
  rw [h gx, h gy, floor_int_add_half, floor_int_add_half]

theorem abs_le_one_of_mem_directions (dir : ℤ × ℤ) (h : dir ∈ directions) :
    |dir.1| ≤ 1 ∧ |dir.2| ≤ 1 := by
  fin_cases h <;> exact ⟨by decide, by decide⟩

/-- Everything one admissible move guarantees about its target: 8-adjacency,
distinctness, validity, walkability and terrain compatibility. -/
theorem canStep_props (pf : Pathfinding) (a b : Cell) (h : canStep pf a b) :
    |b.1 - a.1| ≤ 1 ∧ |b.2 - a.2| ≤ 1 ∧ b ≠ a ∧
    pf.isValidCell b = true ∧ pf.walkable b = true ∧
    canTraverse (pf.terrainLevel a) (pf.terrainLevel b) = true := by
  obtain ⟨hmem, hok⟩ := h
  obtain ⟨hv, dir, hdir, hb⟩ := getNeighbors_mem pf a b hmem
  have hwalk : pf.walkable b = true ∧
      canTraverse (pf.terrainLevel a) (pf.terrainLevel b) = true := by
    unfold Pathfinding.stepOK at hok
    rw [Bool.and_eq_true, Bool.and_eq_true] at hok
    exact ⟨hok.1.1, hok.1.2⟩
  refine ⟨?_, ?_, getNeighbors_ne pf a b hmem, hv, hwalk.1, hwalk.2⟩
  · subst hb
    have hd := abs_le_one_of_mem_directions dir hdir
    simpa using hd.1
  · subst hb
    have hd := abs_le_one_of_mem_directions dir hdir
    simpa using hd.2

/-- The diagonal clause of the neighbor gate: a diagonal step forces both
cardinal corner cells to be walkable and traversal-compatible. -/
theorem stepOK_corners (pf : Pathfinding) (a b : Cell)
    (h : pf.stepOK a b = true) (hdx : b.1 - a.1 ≠ 0) (hdy : b.2 - a.2 ≠ 0) :
    pf.walkable (b.1, a.2) = true ∧ pf.walkable (a.1, b.2) = true ∧
    canTraverse (pf.terrainLevel a) (pf.terrainLevel (b.1, a.2)) = true ∧
    canTraverse (pf.terrainLevel a) (pf.terrainLevel (a.1, b.2)) = true := by
  unfold Pathfinding.stepOK at h
  rw [Bool.and_eq_true, Bool.and_eq_true] at h
  have h3 : (if b.1 - a.1 ≠ 0 ∧ b.2 - a.2 ≠ 0 then
      (pf.walkable (b.1, a.2) && pf.walkable (a.1, b.2) &&
       canTraverse (pf.terrainLevel a) (pf.terrainLevel (b.1, a.2)) &&
       canTraverse (pf.terrainLevel a) (pf.terrainLevel (a.1, b.2)))
    else true) = true := h.2
  rw [if_pos ⟨hdx, hdy⟩] at h3
  rw [Bool.and_eq_true, Bool.and_eq_true, Bool.and_eq_true] at h3
  exact ⟨h3.1.1.1, h3.1.1.2, h3.1.2, h3.2⟩

/-- If a relation implies a property of its second argument, a chain
propagates that property to every element after the head. -/
theorem chain_tail_prop {α : Type} (R : α → α → Prop) (P : α → Prop)
    (hRP : ∀ a b, R a b → P b) :
    ∀ l : List α, List.Chain' R l → ∀ x ∈ l.tail, P x := by
  intro l
  induction l with
  | nil =>
    intro _ x hx
    simp at hx
  | cons a t ih =>
    intro hc x hx
    simp only [List.tail_cons] at hx
    cases t with
    | nil => simp at hx
    | cons b t2 =>
      rw [List.chain'_cons] at hc
      rcases List.mem_cons.1 hx with rfl | hx2
      · exact hRP a x hc.1
      · exact ih hc.2 x hx2

theorem mem_intRangeLe (a b x : ℤ) : x ∈ intRangeLe a b ↔ a ≤ x ∧ x ≤ b := by
  unfold intRangeLe
  simp only [List.mem_map, List.mem_range]
  constructor
  · rintro ⟨i, hi, rfl⟩
    omega
  · rintro ⟨h1, h2⟩
    exact ⟨(x - a).toNat, by omega, by omega⟩

theorem setWalkable_isValidCell (pf : Pathfinding) (a b : ℤ) (w : Bool)
    (c : Cell) : (pf.setWalkable a b w).isValidCell c = pf.isValidCell c := by
  unfold Pathfinding.setWalkable
  split <;> rfl

theorem setWalkable_false_mono (pf : Pathfinding) (a b : ℤ) (c : Cell)
    (h : pf.walkable c = false) :
    (pf.setWalkable a b false).walkable c = false := by
  unfold Pathfinding.setWalkable
  split
  · simp only []
    split
    · rfl
    · exact h
  · exact h

theorem setWalkable_false_self (pf : Pathfinding) (a b : ℤ)
    (hv : pf.isValidCell (a, b) = true) :
    (pf.setWalkable a b false).walkable (a, b) = false := by
  unfold Pathfinding.setWalkable
  rw [if_pos hv]
  simp

theorem innerFold_valid (gy : ℤ) (xs : List ℤ) :
    ∀ (pf : Pathfinding) (c : Cell),
      (xs.foldl (fun pf gx => pf.setWalkable gx gy false) pf).isValidCell c =
        pf.isValidCell c := by
  induction xs with
  | nil =>
    intro pf c
    rfl
  | cons x xs ih =>
    intro pf c
    rw [List.foldl_cons, ih, setWalkable_isValidCell]

theorem innerFold_false_mono (gy : ℤ) (xs : List ℤ) :
    ∀ (pf : Pathfinding) (c : Cell), pf.walkable c = false →
      (xs.foldl (fun pf gx => pf.setWalkable gx gy false) pf).walkable c =
        false := by
  induction xs with
  | nil =>
    intro pf c h
    exact h
  | cons x xs ih =>
    intro pf c h
    rw [List.foldl_cons]
    exact ih _ c (setWalkable_false_mono pf x gy c h)

theorem innerFold_blocks (gy : ℤ) (xs : List ℤ) :
    ∀ (pf : Pathfinding) (gx : ℤ), gx ∈ xs →
      pf.isValidCell (gx, gy) = true →
      (xs.foldl (fun pf gx => pf.setWalkable gx gy false) pf).walkable
        (gx, gy) = false := by
  induction xs with
  | nil =>
    intro pf gx h
    simp at h
  | cons x xs ih =>
    intro pf gx hmem hv
    rw [List.foldl_cons]
    rcases List.mem_cons.1 hmem with rfl | hmem2
    · exact innerFold_false_mono gy xs _ _ (setWalkable_false_self pf gx gy hv)
    · apply ih _ gx hmem2
      rw [setWalkable_isValidCell]
      exact hv

theorem outerFold_false_mono (xs : List ℤ) (ys : List ℤ) :
    ∀ (pf : Pathfinding) (c : Cell), pf.walkable c = false →
      (ys.foldl (fun pf gy =>
        xs.foldl (fun pf gx => pf.setWalkable gx gy false) pf) pf).walkable c =
        false := by
  induction ys with
  | nil =>
    intro pf c h
    exact h
  | cons y ys ih =>
    intro pf c h
    rw [List.foldl_cons]
    exact ih _ c (innerFold_false_mono y xs pf c h)

theorem outerFold_valid (xs : List ℤ) (ys : List ℤ) :
    ∀ (pf : Pathfinding) (c : Cell),
      (ys.foldl (fun pf gy =>
        xs.foldl (fun pf gx => pf.setWalkable gx gy false) pf) pf).isValidCell
        c = pf.isValidCell c := by
  induction ys with
  | nil =>
    intro pf c
    rfl
  | cons y ys ih =>
    intro pf c
    rw [List.foldl_cons, ih, innerFold_valid]

theorem outerFold_blocks (xs : List ℤ) (ys : List ℤ) :
    ∀ (pf : Pathfinding) (gx gy : ℤ), gx ∈ xs → gy ∈ ys →
      pf.isValidCell (gx, gy) = true →
      (ys.foldl (fun pf gy =>
        xs.foldl (fun pf gx => pf.setWalkable gx gy false) pf) pf).walkable
        (gx, gy) = false := by
  induction ys with
  | nil =>
    intro pf gx gy _ h
    simp at h
  | cons y ys ih =>
    intro pf gx gy hx hy hv
    rw [List.foldl_cons]
    rcases List.mem_cons.1 hy with rfl | hy2
    · exact outerFold_false_mono xs ys _ _
        (innerFold_blocks gy xs pf gx hx hv)
    · apply ih _ gx gy hx hy2
      rw [innerFold_valid]
      exact hv

/-- `markBuildingBlocked` makes every valid cell whose world-space center
lies inside the building's bounding box unwalkable. -/
theorem markBuildingBlocked_blocks (pf : Pathfinding) (wx wy bw bh : ℚ)
    (gx gy : ℤ) (hcs : 0 < pf.cellSize) (hv : pf.isValidCell (gx, gy) = true)
    (h1 : wx - bw / 2 ≤ (pf.gridToWorld gx gy).1)
    (h2 : (pf.gridToWorld gx gy).1 ≤ wx + bw / 2)
    (h3 : wy - bh / 2 ≤ (pf.gridToWorld gx gy).2)
    (h4 : (pf.gridToWorld gx gy).2 ≤ wy + bh / 2) :
    (pf.markBuildingBlocked wx wy bw bh).walkable (gx, gy) = false := by
  unfold Pathfinding.gridToWorld at h1 h2 h3 h4
  simp only [] at h1 h2 h3 h4
  unfold Pathfinding.markBuildingBlocked
  apply outerFold_blocks _ _ pf gx gy _ _ hv
  · rw [mem_intRangeLe]
    unfold Pathfinding.worldToGrid
    constructor
    · have hle : (wx - bw / 2) / pf.cellSize ≤ (gx : ℚ) + 1 / 2 := by
        rw [div_le_iff₀ hcs]
        have hr : ((gx : ℚ) + 1 / 2) * pf.cellSize =
            (gx : ℚ) * pf.cellSize + pf.cellSize / 2 := by ring
        rw [hr]
        exact h1
      calc ⌊(wx - bw / 2) / pf.cellSize⌋ ≤ ⌊(gx : ℚ) + 1 / 2⌋ :=
            Int.floor_le_floor hle
        _ = gx := floor_int_add_half gx
    · rw [Int.le_floor, le_div_iff₀ hcs]
      nlinarith [hcs]
  · rw [mem_intRangeLe]
    unfold Pathfinding.worldToGrid
    constructor
    · have hle : (wy - bh / 2) / pf.cellSize ≤ (gy : ℚ) + 1 / 2 := by
        rw [div_le_iff₀ hcs]
        have hr : ((gy : ℚ) + 1 / 2) * pf.cellSize =
            (gy : ℚ) * pf.cellSize + pf.cellSize / 2 := by ring
        rw [hr]
        exact h3
      calc ⌊(wy - bh / 2) / pf.cellSize⌋ ≤ ⌊(gy : ℚ) + 1 / 2⌋ :=
            Int.floor_le_floor hle
        _ = gy := floor_int_add_half gy
    · rw [Int.le_floor, le_div_iff₀ hcs]
      nlinarith [hcs]

/-- C3: for any grid state and any pair of in-range walkable cells
connected under the engine's admissible 8-neighbor step relation,
`findPath` returns a non-empty waypoint sequence whose first point's grid
cell is the start cell, whose last point's grid cell is the goal cell,
and each of whose waypoints is the world-space center of its own grid
cell. -/
theorem findPath_complete (pf : Pathfinding) (sx sy ex ey : ℚ)
    (hcs : 0 < pf.cellSize)
    (hs : pf.isValidCell (pf.worldToGrid sx sy) = true)
    (he : pf.isValidCell (pf.worldToGrid ex ey) = true)
    (_hsw : pf.walkable (pf.worldToGrid sx sy) = true)
    (hew : pf.walkable (pf.worldToGrid ex ey) = true)
    (hreach : Reachable pf (pf.worldToGrid sx sy) (pf.worldToGrid ex ey)) :
    pf.findPath sx sy ex ey ≠ [] ∧
    (pf.findPath sx sy ex ey).head?.map (fun p => pf.worldToGrid p.1 p.2) =
      some (pf.worldToGrid sx sy) ∧
    (pf.findPath sx sy ex ey).getLast?.map (fun p => pf.worldToGrid p.1 p.2) =
      some (pf.worldToGrid ex ey) ∧
    ∀ p ∈ pf.findPath sx sy ex ey,
      p = pf.gridToWorld (pf.worldToGrid p.1 p.2).1 (pf.worldToGrid p.1 p.2).2 := by
  have hne : pf.findPath sx sy ex ey ≠ [] := by
    unfold Pathfinding.findPath
    rw [if_neg (not_not_intro ⟨hs, he⟩), if_neg (not_not_intro hew)]
    apply aStarLoop_complete pf (pf.worldToGrid sx sy) (pf.worldToGrid ex ey)
      hreach
    · exact searchStart_inv pf _ hs
    · simp [searchStart]
    · simp [searchStart]
  obtain ⟨chain, hcne, hhead, hlast, hchain, heq⟩ :=
    findPath_chain pf sx sy ex ey hne
  refine ⟨hne, ?_, ?_, ?_⟩
  · rw [heq, List.head?_map, hhead]
    have h := (worldToGrid_gridToWorld pf hcs (pf.worldToGrid sx sy).1
      (pf.worldToGrid sx sy).2).trans Prod.mk.eta
    simpa using h
  · rw [heq, List.getLast?_map, hlast]
    have h := (worldToGrid_gridToWorld pf hcs (pf.worldToGrid ex ey).1
      (pf.worldToGrid ex ey).2).trans Prod.mk.eta
    simpa using h
  · intro p hp
    rw [heq, List.mem_map] at hp
    obtain ⟨cell, -, rfl⟩ := hp
    rw [worldToGrid_gridToWorld pf hcs]

/-- Witness for C3 on a concrete 2-by-2 grid: the diagonal route from the
cell at world (16,16) to the cell at world (48,48). -/
theorem findPath_complete_witness :
    pfSmall.findPath 16 16 48 48 ≠ [] ∧
    (pfSmall.findPath 16 16 48 48).head?.map
      (fun p => pfSmall.worldToGrid p.1 p.2) =
      some (pfSmall.worldToGrid 16 16) ∧
    (pfSmall.findPath 16 16 48 48).getLast?.map
      (fun p => pfSmall.worldToGrid p.1 p.2) =
      some (pfSmall.worldToGrid 48 48) ∧
    ∀ p ∈ pfSmall.findPath 16 16 48 48,
      p = pfSmall.gridToWorld (pfSmall.worldToGrid p.1 p.2).1
        (pfSmall.worldToGrid p.1 p.2).2 :=
  findPath_complete pfSmall 16 16 48 48
    (of_decide_eq_true (by with_unfolding_all rfl))
    (of_decide_eq_true (by with_unfolding_all rfl))
    (of_decide_eq_true (by with_unfolding_all rfl))
    (of_decide_eq_true (by with_unfolding_all rfl))
    (of_decide_eq_true (by with_unfolding_all rfl))
    (Relation.ReflTransGen.single (of_decide_eq_true (by with_unfolding_all rfl)))

/-- C5: the neighbor loop admits a diagonal step only when both cardinal
corner cells are walkable and traversal-compatible from the current cell,
so the cell chain underlying any returned path satisfies the corner
conditions at each of its diagonal steps. -/
theorem findPath_diagonal_corners :
    (∀ (pf : Pathfinding) (a b : Cell), canStep pf a b →
      b.1 ≠ a.1 → b.2 ≠ a.2 →
      pf.walkable (b.1, a.2) = true ∧ pf.walkable (a.1, b.2) = true ∧
      canTraverse (pf.terrainLevel a) (pf.terrainLevel (b.1, a.2)) = true ∧
      canTraverse (pf.terrainLevel a) (pf.terrainLevel (a.1, b.2)) = true) ∧
    (∀ (pf : Pathfinding) (sx sy ex ey : ℚ), pf.findPath sx sy ex ey ≠ [] →
      ∃ chain : List Cell,
        pf.findPath sx sy ex ey = chain.map (fun x => pf.gridToWorld x.1 x.2) ∧
        List.Chain' (fun a b => b.1 ≠ a.1 → b.2 ≠ a.2 →
          pf.walkable (b.1, a.2) = true ∧ pf.walkable (a.1, b.2) = true ∧
          canTraverse (pf.terrainLevel a) (pf.terrainLevel (b.1, a.2)) = true ∧
          canTraverse (pf.terrainLevel a) (pf.terrainLevel (a.1, b.2)) = true)
          chain) := by
  have hgate : ∀ (pf : Pathfinding) (a b : Cell), canStep pf a b →
      b.1 ≠ a.1 → b.2 ≠ a.2 →
      pf.walkable (b.1, a.2) = true ∧ pf.walkable (a.1, b.2) = true ∧
      canTraverse (pf.terrainLevel a) (pf.terrainLevel (b.1, a.2)) = true ∧
      canTraverse (pf.terrainLevel a) (pf.terrainLevel (a.1, b.2)) = true := by
    intro pf a b hstep hdx hdy
    exact stepOK_corners pf a b hstep.2 (sub_ne_zero_of_ne hdx)
      (sub_ne_zero_of_ne hdy)
  refine ⟨hgate, ?_⟩
  intro pf sx sy ex ey hne
  obtain ⟨chain, -, -, -, hchain, heq⟩ := findPath_chain pf sx sy ex ey hne
  exact ⟨chain, heq, hchain.imp (fun a b hab => hgate pf a b hab)⟩

/-- Witness for C5: the diagonal admissible step from cell (0,0) to
(1,1) of the 2-by-2 grid has both corner cells walkable and compatible,
and the concrete diagonal path from world (16,16) to (48,48) carries the
corner property along its chain. -/
theorem findPath_diagonal_corners_witness :
    (pfSmall.walkable (1, 0) = true ∧ pfSmall.walkable (0, 1) = true ∧
     canTraverse (pfSmall.terrainLevel (0, 0)) (pfSmall.terrainLevel (1, 0)) =
       true ∧
     canTraverse (pfSmall.terrainLevel (0, 0)) (pfSmall.terrainLevel (0, 1)) =
       true) ∧
    (∃ chain : List Cell,
      pfSmall.findPath 16 16 48 48 =
        chain.map (fun x => pfSmall.gridToWorld x.1 x.2) ∧
      List.Chain' (fun a b => b.1 ≠ a.1 → b.2 ≠ a.2 →
        pfSmall.walkable (b.1, a.2) = true ∧
        pfSmall.walkable (a.1, b.2) = true ∧
        canTraverse (pfSmall.terrainLevel a)
          (pfSmall.terrainLevel (b.1, a.2)) = true ∧
        canTraverse (pfSmall.terrainLevel a)
          (pfSmall.terrainLevel (a.1, b.2)) = true) chain) :=
  ⟨findPath_diagonal_corners.1 pfSmall (0, 0) (1, 1)
      (of_decide_eq_true (by with_unfolding_all rfl))
      (by decide) (by decide),
   findPath_diagonal_corners.2 pfSmall 16 16 48 48
      (of_decide_eq_true (by with_unfolding_all rfl))⟩

/-- C10: every returned path is the image of a chain of distinct
8-adjacent cells whose consecutive kinds satisfy `canTraverse`, every
cell after the head of the chain is walkable, and the start cell's own
walkability is not checked — `findPath` from an unwalkable start cell can
return a non-empty path. -/
theorem findPath_step_invariants :
    (∀ (pf : Pathfinding) (sx sy ex ey : ℚ), pf.findPath sx sy ex ey ≠ [] →
      ∃ chain : List Cell,
        pf.findPath sx sy ex ey = chain.map (fun x => pf.gridToWorld x.1 x.2) ∧
        List.Chain' (fun a b => |b.1 - a.1| ≤ 1 ∧ |b.2 - a.2| ≤ 1 ∧ b ≠ a ∧
          canTraverse (pf.terrainLevel a) (pf.terrainLevel b) = true) chain ∧
        (∀ c ∈ chain.tail, pf.walkable c = true)) ∧
    (pfSmallBlocked.walkable (pfSmallBlocked.worldToGrid 16 16) = false ∧
     pfSmallBlocked.findPath 16 16 48 48 ≠ []) := by
  constructor
  · intro pf sx sy ex ey hne
    obtain ⟨chain, -, -, -, hchain, heq⟩ := findPath_chain pf sx sy ex ey hne
    refine ⟨chain, heq, ?_, ?_⟩
    · refine hchain.imp (fun a b hab => ?_)
      obtain ⟨h1, h2, h3, -, -, h6⟩ := canStep_props pf a b hab
      exact ⟨h1, h2, h3, h6⟩
    · exact chain_tail_prop (canStep pf) (fun c => pf.walkable c = true)
        (fun a b hab => (canStep_props pf a b hab).2.2.2.2.1) chain hchain
  · constructor
    · exact of_decide_eq_true (by with_unfolding_all rfl)
    · exact of_decide_eq_true (by with_unfolding_all rfl)

/-- Witness for C10: the concrete diagonal path of the 2-by-2 grid
satisfies the chain invariants. -/
theorem findPath_step_invariants_witness :
    ∃ chain : List Cell,
      pfSmall.findPath 16 16 48 48 =
        chain.map (fun x => pfSmall.gridToWorld x.1 x.2) ∧
      List.Chain' (fun a b => |b.1 - a.1| ≤ 1 ∧ |b.2 - a.2| ≤ 1 ∧ b ≠ a ∧
        canTraverse (pfSmall.terrainLevel a) (pfSmall.terrainLevel b) = true)
        chain ∧
      (∀ c ∈ chain.tail, pfSmall.walkable c = true) :=
  findPath_step_invariants.1 pfSmall 16 16 48 48
    (of_decide_eq_true (by with_unfolding_all rfl))

/-- C7 (amended): `markBuildingBlocked` over a rectangle makes every
valid grid cell whose world-space center lies in that rectangle
unwalkable; on the 10×10 all-flat grid with the central 3×3 block of
cells (4,4)–(6,6) blocked, `findPath` from corner to opposite corner
returns a non-empty route every waypoint of which lies in a walkable
cell, and `findPath` starting at the central blocked cell (5,5) — whose
neighbors are all blocked — returns an empty sequence. -/
theorem markBlocked_scenario :
    (∀ (pf : Pathfinding) (wx wy bw bh : ℚ) (gx gy : ℤ),
      0 < pf.cellSize → pf.isValidCell (gx, gy) = true →
      wx - bw / 2 ≤ (pf.gridToWorld gx gy).1 →
      (pf.gridToWorld gx gy).1 ≤ wx + bw / 2 →
      wy - bh / 2 ≤ (pf.gridToWorld gx gy).2 →
      (pf.gridToWorld gx gy).2 ≤ wy + bh / 2 →
      (pf.markBuildingBlocked wx wy bw bh).walkable (gx, gy) = false) ∧
    (pfTen.findPath 16 16 304 304 ≠ [] ∧
     ∀ p ∈ pfTen.findPath 16 16 304 304,
       pfTen.walkable (pfTen.worldToGrid p.1 p.2) = true) ∧
    pfTen.findPath 176 176 16 16 = [] := by
  refine ⟨?_, ⟨?_, ?_⟩, ?_⟩
  · intro pf wx wy bw bh gx gy hcs hv h1 h2 h3 h4
    exact markBuildingBlocked_blocks pf wx wy bw bh gx gy hcs hv h1 h2 h3 h4
  · exact of_decide_eq_true (by with_unfolding_all rfl)
  · exact of_decide_eq_true (by with_unfolding_all rfl)
  · exact of_decide_eq_true (by with_unfolding_all rfl)

/-- Witness for C7's amended theorem: the central cell (5,5), whose
center (176,176) lies in the 64×64 box at (160,160), is unwalkable after
`markBuildingBlocked`. -/
theorem markBlocked_scenario_witness :
    pfTen.walkable (5, 5) = false :=
  markBlocked_scenario.1 (Pathfinding.create 320 320 32) 160 160 64 64 5 5
    (of_decide_eq_true (by with_unfolding_all rfl))
    (of_decide_eq_true (by with_unfolding_all rfl))
    (of_decide_eq_true (by with_unfolding_all rfl))
    (of_decide_eq_true (by with_unfolding_all rfl))
    (of_decide_eq_true (by with_unfolding_all rfl))
    (of_decide_eq_true (by with_unfolding_all rfl))

/-- Counterexample to C7 as stated: the boundary cell (4,4) of the
blocked 3×3 area is unwalkable, yet `findPath` starting there returns a
non-empty sequence — start walkability is never checked, so only the
fully enclosed central cell is guaranteed to fail. -/
theorem markBlocked_start_counterexample :
    pfTen.walkable (pfTen.worldToGrid 144 144) = false ∧
    pfTen.findPath 144 144 16 16 ≠ [] := by
  constructor
  · exact of_decide_eq_true (by with_unfolding_all rfl)
  · exact of_decide_eq_true (by with_unfolding_all rfl)
